import Mathlib

/-!
# RTClib: calendar codec, civil timestamp and clock sources

A shallow embedding of `RTClib.cpp` / `RTClib.h` (JeeLabs real-time-clock library with the
millisecond extension).  Unsigned machine integers are natural numbers reduced modulo
`2^8`, `2^16` or `2^32` at every place where the C++ code stores into a variable of that
width; `long` is a 32-bit two's-complement integer (the AVR target the code is written for,
where `int` has 16 bits).  Reads of the `daysInMonth` table outside its twelve entries and
reads outside a C string have no defined value and are modelled by `none`.
-/

namespace RTClib

/-! ## Constants and utility code -/

/-- The macro `SECONDS_FROM_1970_TO_2000`. -/
def SECONDS_FROM_1970_TO_2000 : Nat := 946684800

/-- The table `daysInMonth` kept in program memory. -/
def daysInMonth : List Nat := [31, 28, 31, 30, 31, 30, 31, 31, 30, 31, 30, 31]

/-- The read `pgm_read_byte(daysInMonth + off)`: defined for the twelve entries of the table
only. -/
def pgm_read_byte (off : Int) : Option Nat :=
  if 0 ≤ off then daysInMonth[off.toNat]? else none

/-- The loop `for (uint8_t i = 1; i < m; ++i) days += pgm_read_byte(daysInMonth + i - 1);`
of `date2days`, with `days` a `uint16_t` and `i` a `uint8_t`. -/
def date2daysLoop : Nat → Nat → Nat → Nat → Option Nat
  | 0, _, _, _ => none
  | fuel + 1, i, m, days =>
    if i < m then
      match pgm_read_byte ((i : Int) - 1) with
      | none => none
      | some b => date2daysLoop fuel ((i + 1) % 256) m ((days + b) % 65536)
    else some days

/-- The function `date2days(uint16_t y, uint8_t m, uint8_t d)`: number of days since
2000/01/01, computed in 16-bit unsigned arithmetic. -/
def date2days (y m d : Nat) : Option Nat :=
  let y := if y ≥ 2000 then y - 2000 else y
  match date2daysLoop 256 1 m d with
  | none => none
  | some days =>
    let days := if m > 2 ∧ y % 4 = 0 then (days + 1) % 65536 else days
    some ((days + (365 * y) % 65536 + ((y + 3) % 65536) / 4 + 65535) % 65536)

/-- Reduction of an integer to the range of a 32-bit two's-complement `long`. -/
def wrapLong (x : Int) : Int := (x + 2147483648) % 4294967296 - 2147483648

/-- The function `time2long(uint16_t days, uint8_t h, uint8_t m, uint8_t s)`, every
intermediate result being a `long`. -/
def time2long (days h m s : Nat) : Int :=
  wrapLong (wrapLong (wrapLong (wrapLong (wrapLong ((days : Int) * 24) + h) * 60) + m) * 60
    + s)

/-! ## DateTime -/

/-- The class `DateTime`: the seven `uint8_t` fields `yOff, m, d, hh, mm, ss, ms`. -/
structure DateTime where
  yOff : Nat
  m : Nat
  d : Nat
  hh : Nat
  mm : Nat
  ss : Nat
  ms : Nat
  deriving DecidableEq, Repr

/-- The first loop of `DateTime::DateTime(uint32_t)`:
`for (yOff = 0; ; ++yOff) { leap = yOff % 4 == 0; if (days < 365 + leap) break;
days -= 365 + leap; }`.  The result is `(yOff, leap, days)`. -/
def yearLoop : Nat → Nat → Nat → Option (Nat × Nat × Nat)
  | 0, _, _ => none
  | fuel + 1, yOff, days =>
    let leap := if yOff % 4 = 0 then 1 else 0
    if days < 365 + leap then some (yOff, leap, days)
    else yearLoop fuel ((yOff + 1) % 256) ((days + 65536 - (365 + leap)) % 65536)

/-- The second loop of `DateTime::DateTime(uint32_t)`:
`for (m = 1; ; ++m) { daysPerMonth = pgm_read_byte(daysInMonth + m - 1);
if (leap && m == 2) ++daysPerMonth; if (days < daysPerMonth) break; days -= daysPerMonth; }`.
The result is `(m, days)`. -/
def monthLoop : Nat → Nat → Nat → Nat → Option (Nat × Nat)
  | 0, _, _, _ => none
  | fuel + 1, m, leap, days =>
    match pgm_read_byte ((m : Int) - 1) with
    | none => none
    | some b =>
      let daysPerMonth := if leap ≠ 0 ∧ m = 2 then (b + 1) % 256 else b
      if days < daysPerMonth then some (m, days)
      else monthLoop fuel ((m + 1) % 256) leap ((days + 65536 - daysPerMonth) % 65536)

/-- The body of `DateTime::DateTime(uint32_t t)` after the line
`t -= SECONDS_FROM_1970_TO_2000`: `t` counts seconds since 2000-01-01. -/
def DateTime.decode (t : Nat) : Option DateTime :=
  let ss := (t % 60) % 256
  let t := t / 60
  let mm := (t % 60) % 256
  let t := t / 60
  let hh := (t % 24) % 256
  let days := (t / 24) % 65536
  match yearLoop 256 0 days with
  | none => none
  | some (yOff, leap, days) =>
    match monthLoop 256 1 leap days with
    | none => none
    | some (m, days) => some ⟨yOff, m, (days + 1) % 256, hh, mm, ss, 0⟩

/-- The constructor `DateTime::DateTime(uint32_t t)`. -/
def DateTime.ofUnixtime (t : Nat) : Option DateTime :=
  DateTime.decode ((t % 4294967296 + 4294967296 - SECONDS_FROM_1970_TO_2000) % 4294967296)

/-- The constructor `DateTime::DateTime(uint16_t year, uint8_t month, uint8_t day,
uint8_t hour, uint8_t min, uint8_t sec, uint16_t millisec)`. -/
def DateTime.ofFields (year month day hour min sec millisec : Nat) : DateTime :=
  let year := if year ≥ 2000 then year - 2000 else year
  ⟨year % 256, month, day, hour, min, sec, millisec % 256⟩

/-- The accessor `year()`, a `uint16_t`. -/
def DateTime.year (dt : DateTime) : Nat := (2000 + dt.yOff) % 65536

/-- The accessor `month()`. -/
def DateTime.month (dt : DateTime) : Nat := dt.m

/-- The accessor `day()`. -/
def DateTime.day (dt : DateTime) : Nat := dt.d

/-- The accessor `hour()`. -/
def DateTime.hour (dt : DateTime) : Nat := dt.hh

/-- The accessor `minute()`. -/
def DateTime.minute (dt : DateTime) : Nat := dt.mm

/-- The accessor `second()`. -/
def DateTime.second (dt : DateTime) : Nat := dt.ss

/-- The accessor `millis()`, a `uint16_t` read from the `uint8_t` field `ms`. -/
def DateTime.millis (dt : DateTime) : Nat := dt.ms

/-- The method `DateTime::dayOfWeek()`. -/
def DateTime.dayOfWeek (dt : DateTime) : Option Nat :=
  match date2days dt.yOff dt.m dt.d with
  | none => none
  | some day => some ((((day + 6) % 65536) % 7) % 256)

/-- The method `DateTime::unixtime()`. -/
def DateTime.unixtime (dt : DateTime) : Option Nat :=
  match date2days dt.yOff dt.m dt.d with
  | none => none
  | some days =>
    let t := ((time2long days dt.hh dt.mm dt.ss) % 4294967296).toNat
    some ((t + SECONDS_FROM_1970_TO_2000) % 4294967296)

/-- The constructor `DateTime::DateTime(const char* date, const char* time)` reads single
characters of its two arguments.  A C string is the list of its character codes followed by
a terminating NUL; a read past the terminator has no defined value. -/
def charAt (p : List Nat) (i : Nat) : Option Nat :=
  if i < p.length then p[i]? else if i = p.length then some 0 else none

/-- The character codes of a string literal. -/
def cstr (s : String) : List Nat := s.toList.map Char.toNat

/-- The function `conv2d(const char* p)`, called on `p + off`.  The sum `10 * v + *++p - '0'`
is an `int` and the result a `uint8_t`. -/
def conv2d (p : List Nat) (off : Nat) : Option Nat :=
  match charAt p off, charAt p (off + 1) with
  | some c0, some c1 =>
    let v : Nat := if 48 ≤ c0 ∧ c0 ≤ 57 then (c0 - 48) % 256 else 0
    some (((10 * (v : Int) + (c1 : Int) - 48) % 256).toNat)
  | _, _ => none

/-- The `switch (date[0])` of the string constructor.  The switch has no default case: when
no case matches, the field `m` keeps the value `m0` it held before. -/
def parseMonth (m0 : Nat) (date : List Nat) : Option Nat :=
  match charAt date 0 with
  | none => none
  | some c =>
    if c = 'J'.toNat then
      match charAt date 1 with
      | none => none
      | some c1 =>
        if c1 = 'a'.toNat then some 1
        else
          match charAt date 2 with
          | none => none
          | some c2 => if c2 = 'n'.toNat then some 6 else some 7
    else if c = 'F'.toNat then some 2
    else if c = 'A'.toNat then
      match charAt date 2 with
      | none => none
      | some c2 => if c2 = 'r'.toNat then some 4 else some 8
    else if c = 'M'.toNat then
      match charAt date 2 with
      | none => none
      | some c2 => if c2 = 'r'.toNat then some 3 else some 5
    else if c = 'S'.toNat then some 9
    else if c = 'O'.toNat then some 10
    else if c = 'N'.toNat then some 11
    else if c = 'D'.toNat then some 12
    else some m0

/-- The constructor `DateTime::DateTime(const char* date, const char* time)`; `m0` is the
content of the uninitialised field `m`. -/
def DateTime.ofStrings (m0 : Nat) (date time : List Nat) : Option DateTime :=
  match conv2d date 9, parseMonth m0 date, conv2d date 4, conv2d time 0, conv2d time 3,
    conv2d time 6 with
  | some yOff, some m, some d, some hh, some mm, some ss => some ⟨yOff, m, d, hh, mm, ss, 0⟩
  | _, _, _, _, _, _ => none

/-! ## RTC_DS1307 -/

/-- The function `bcd2bin(uint8_t val)`: `val - 6 * (val >> 4)`, stored in a `uint8_t`. -/
def bcd2bin (val : Nat) : Nat :=
  let val := val % 256
  (((val : Int) - 6 * ((val >>> 4 : Nat) : Int)) % 256).toNat

/-- The function `bin2bcd(uint8_t val)`: `val + 6 * (val / 10)`, stored in a `uint8_t`. -/
def bin2bcd (val : Nat) : Nat :=
  let val := val % 256
  (val + 6 * (val / 10)) % 256

/-- Modelled from the spec: the Arduino macro `constrain(amt, low, high)`, which is not part
of this repository; the spec calls it `clamp`: `low` below `low`, `high` above `high`, the
value itself in between. -/
def constrain (amt low high : Int) : Int :=
  if amt < low then low else if amt > high then high else amt

/-- Modelled from the spec: the clock chip behind the two-wire bus (neither the `Wire`
library nor the chip is part of this repository).  The chip is a block of byte registers;
a transmission `beginTransmission; write(ptr); write(b0); write(b1); ...; endTransmission`
stores `b0, b1, ...` in the registers `ptr, ptr + 1, ...`. -/
def wireWrite (regs : Nat → Nat) (ptr : Nat) (bytes : List Nat) : Nat → Nat :=
  fun a => if ptr ≤ a ∧ a < ptr + bytes.length then bytes.getD (a - ptr) 0 else regs a

/-- Modelled from the spec: after the register pointer has been set to `ptr`, the `k`-th
`read()` (counted from 0) following `requestFrom` returns the content of register
`ptr + k`. -/
def wireRead (regs : Nat → Nat) (ptr k : Nat) : Nat := regs (ptr + k) % 256

/-- The static members `prevMillis` (an `unsigned long`) and `prevUnixtime` (a `uint32_t`)
of the class `RTC_DS1307`. -/
structure RTC_DS1307 where
  prevMillis : Nat
  prevUnixtime : Nat
  deriving DecidableEq, Repr

/-- The method `RTC_DS1307::begin()`. -/
def RTC_DS1307.begin (s : RTC_DS1307) : Nat × RTC_DS1307 := (1, s)

/-- The method `RTC_DS1307::isrunning()`: `!(ss >> 7)` for the byte `ss` read from
register 0. -/
def RTC_DS1307.isrunning (s : RTC_DS1307) (regs : Nat → Nat) : Nat × RTC_DS1307 :=
  let ss := wireRead regs 0 0
  ((if ss >>> 7 = 0 then 1 else 0), s)

/-- The method `RTC_DS1307::adjust(const DateTime& dt)`, called when `millis()` reads
`millis`.  The result is the new register block and the new static members. -/
def RTC_DS1307.adjust (_s : RTC_DS1307) (regs : Nat → Nat) (dt : DateTime) (millis : Nat) :
    Option ((Nat → Nat) × RTC_DS1307) :=
  let regs := wireWrite regs 0
    [bin2bcd dt.ss, bin2bcd dt.mm, bin2bcd dt.hh, bin2bcd 0, bin2bcd dt.d, bin2bcd dt.m,
      bin2bcd ((dt.year + 65536 - 2000) % 65536), 0]
  match dt.unixtime with
  | none => none
  | some u => some (regs, ⟨millis % 4294967296, u⟩)

/-- The method `RTC_DS1307::now()`, called when `millis()` reads `millis`.  The result is the
returned `DateTime` and the new static members. -/
def RTC_DS1307.now (s : RTC_DS1307) (regs : Nat → Nat) (millis : Nat) :
    Option (DateTime × RTC_DS1307) :=
  let ss := bcd2bin (wireRead regs 0 0 &&& 0x7F)
  let mm := bcd2bin (wireRead regs 0 1)
  let hh := bcd2bin (wireRead regs 0 2)
  let d := bcd2bin (wireRead regs 0 4)
  let m := bcd2bin (wireRead regs 0 5)
  let y := (bcd2bin (wireRead regs 0 6) + 2000) % 65536
  let dt := DateTime.ofFields y m d hh mm ss 0
  let curms := millis % 4294967296
  match dt.unixtime with
  | none => none
  | some u =>
    let ms : Int := wrapLong (((curms + 4294967296 - s.prevMillis) % 4294967296 : Nat) : Int)
    let ms : Int := wrapLong
      (ms - ((((u + 4294967296 - s.prevUnixtime) % 4294967296) * 1000 % 4294967296 : Nat) : Int))
    let ms : Int := constrain ms 0 999
    some ({ dt with ms := (ms % 256).toNat }, ⟨curms, u⟩)

/-! ## RTC_Millis -/

/-- The static members `offset` and `offsetms` of the class `RTC_Millis`, both of type
`long`. -/
structure RTC_Millis where
  offset : Int
  offsetms : Int
  deriving DecidableEq, Repr

/-- The method `RTC_Millis::adjust(const DateTime& dt)`, called when `millis()` reads
`millis`: `offsetms = millis(); offset = dt.unixtime() - offsetms / 1000; offsetms %= 1000;`.
The `unsigned long` reading is stored in the `long` member `offsetms`; the division and the
remainder are those of `long` (rounding toward zero); the difference is taken in
`unsigned long` and stored in the `long` member `offset`. -/
def RTC_Millis.adjust (_s : RTC_Millis) (dt : DateTime) (millis : Nat) : Option RTC_Millis :=
  let offsetms : Int := wrapLong ((millis % 4294967296 : Nat) : Int)
  match dt.unixtime with
  | none => none
  | some u =>
    let offset : Int := wrapLong ((u : Int) - Int.tdiv offsetms 1000)
    some ⟨offset, Int.tmod offsetms 1000⟩

/-- The method `RTC_Millis::begin(const DateTime& dt)`, which calls `adjust(dt)`. -/
def RTC_Millis.begin (s : RTC_Millis) (dt : DateTime) (millis : Nat) : Option RTC_Millis :=
  RTC_Millis.adjust s dt millis

/-- The method `RTC_Millis::now()`, called when `millis()` reads `millis`:
`unsigned long time = millis(); DateTime dt((uint32_t)(offset + time / 1000)); dt.ms = time;`.
The sum is taken in `unsigned long`; the field `ms` is a `uint8_t`. -/
def RTC_Millis.now (s : RTC_Millis) (millis : Nat) : Option DateTime :=
  let time := millis % 4294967296
  (DateTime.ofUnixtime (((s.offset + ((time / 1000 : Nat) : Int)) % 4294967296).toNat)).map
    (fun dt => { dt with ms := time % 256 })

/-! ## Reference calendar

The Gregorian calendar as the claims about civil dates and weekdays word it: leap years,
month lengths, a day count obtained by adding the lengths of the years and months passed,
and the weekday obtained from the day count and the fact that 1970-01-01 was a Thursday. -/

/-- The Gregorian leap-year rule. -/
def isLeapYear (y : Nat) : Bool :=
  decide (y % 4 = 0 ∧ (y % 100 ≠ 0 ∨ y % 400 = 0))

/-- Length of year `y` in days. -/
def yearLength (y : Nat) : Nat := if isLeapYear y then 366 else 365

/-- Length of month `m` (1 = January) of year `y`; 0 for a month that does not exist. -/
def monthLength (y m : Nat) : Nat :=
  match m with
  | 1 => 31
  | 2 => if isLeapYear y then 29 else 28
  | 3 => 31
  | 4 => 30
  | 5 => 31
  | 6 => 30
  | 7 => 31
  | 8 => 31
  | 9 => 30
  | 10 => 31
  | 11 => 30
  | 12 => 31
  | _ => 0

/-- A date of the Gregorian calendar. -/
def validDate (y m d : Nat) : Prop := 1 ≤ m ∧ m ≤ 12 ∧ 1 ≤ d ∧ d ≤ monthLength y m

instance (y m d : Nat) : Decidable (validDate y m d) := by
  unfold validDate
  infer_instance

/-- Number of days from January 1 of year `y0` to January 1 of year `y0 + n`. -/
def daysOfYears (y0 : Nat) : Nat → Nat
  | 0 => 0
  | n + 1 => daysOfYears y0 n + yearLength (y0 + n)

/-- Number of days from January 1 of year `y` to the first day of month `m` of that year. -/
def daysBeforeMonth (y : Nat) : Nat → Nat
  | 0 => 0
  | m + 1 => daysBeforeMonth y m + monthLength y m

/-- Number of days from January 1 of year `y0` to the date `y`-`m`-`d`. -/
def civilDays (y0 y m d : Nat) : Nat :=
  daysOfYears y0 (y - y0) + daysBeforeMonth y m + (d - 1)

/-- Day of the week of a date, 0 = Sunday, ..., 6 = Saturday; 1970-01-01 was a Thursday. -/
def civilWeekday (y m d : Nat) : Nat := (civilDays 1970 y m d + 4) % 7

/-- Length of month `m` in the calendar of the decoder: February has 29 days exactly when
the year offset is a multiple of 4. -/
def monthLength4 (yOff m : Nat) : Nat :=
  if m = 2 ∧ yOff % 4 = 0 then 29 else daysInMonth.getD (m - 1) 0

/-- The English three-letter abbreviation of month `k` (1 = January), as the compiler writes
it in `__DATE__`. -/
def monthAbbrev (k : Nat) : List Nat :=
  cstr (["Jan", "Feb", "Mar", "Apr", "May", "Jun", "Jul", "Aug", "Sep", "Oct", "Nov",
    "Dec"].getD (k - 1) "")

/-- The two characters of a number below 100 written with two decimal digits. -/
def twoDigits (n : Nat) : List Nat := [48 + n / 10, 48 + n % 10]

/-- A day of the month written as two characters: two digits, or, below 10, the padding
character `pad` and one digit. -/
def dayChars (pad dd : Nat) : List Nat :=
  if dd < 10 then [pad, 48 + dd] else twoDigits dd

/-- The date text `"Mon dd 20YY"`. -/
def dateText (k pad dd yy : Nat) : List Nat :=
  monthAbbrev k ++ [32] ++ dayChars pad dd ++ [32, 50, 48] ++ twoDigits yy

/-- The time text `"hh:mm:ss"`. -/
def timeText (hh mm ss : Nat) : List Nat :=
  twoDigits hh ++ [58] ++ twoDigits mm ++ [58] ++ twoDigits ss

/-! ## Auxiliary definitions for the proofs -/

/-- Number of days before January 1 of year `2000 + y` counted from 2000-01-01 with a leap
year every fourth year. -/
def daysBeforeYear (y : Nat) : Nat := 365 * y + (y + 3) / 4


/-- Check, for one remaining day count of a year, that the month loop stops inside the
table and that the month loop of `date2days` undoes it. -/
def monthLoopCheck (leap days : Nat) : Bool :=
  match monthLoop 256 1 leap days with
  | none => false
  | some (m, d) => decide (1 ≤ m ∧ m ≤ 12 ∧ d < 31 ∧
      date2daysLoop 256 1 m (d + 1)
        = some (days + 1 - (if m > 2 ∧ leap = 1 then 1 else 0)))

/-- Check, for one day of one month, that the month loop of the decoder undoes the month
loop of `date2days`. -/
def monthRoundCheck (leap m d : Nat) : Bool :=
  if 1 ≤ m ∧ 1 ≤ d ∧ d ≤ monthLength4 (1 - leap) m then
    match date2daysLoop 256 1 m d with
    | none => false
    | some n =>
      decide (1 ≤ n ∧ n - 1 + (if m > 2 ∧ leap = 1 then 1 else 0) < 365 + leap ∧
        monthLoop 256 1 leap (n - 1 + (if m > 2 ∧ leap = 1 then 1 else 0)) = some (m, d - 1))
  else true

/-- The year loop of the epoch decoder over unbounded natural numbers: the counters are not
reduced modulo `2^8` and `2^16`.  The loop of the code agrees with it exactly when no counter
of the code overflows. -/
def yearLoopU : Nat → Nat → Nat → Option (Nat × Nat × Nat)
  | 0, _, _ => none
  | fuel + 1, yOff, days =>
    let leap := if yOff % 4 = 0 then 1 else 0
    if days < 365 + leap then some (yOff, leap, days)
    else yearLoopU fuel (yOff + 1) (days - (365 + leap))

/-- The month loop of the epoch decoder over unbounded natural numbers. -/
def monthLoopU : Nat → Nat → Nat → Nat → Option (Nat × Nat)
  | 0, _, _, _ => none
  | fuel + 1, m, leap, days =>
    match pgm_read_byte ((m : Int) - 1) with
    | none => none
    | some b =>
      let daysPerMonth := if leap ≠ 0 ∧ m = 2 then b + 1 else b
      if days < daysPerMonth then some (m, days)
      else monthLoopU fuel (m + 1) leap (days - daysPerMonth)

/-- The body of the epoch decoder over unbounded natural numbers. -/
def DateTime.decodeU (t : Nat) : Option DateTime :=
  match yearLoopU 256 0 (t / 60 / 60 / 24) with
  | none => none
  | some (yOff, leap, days) =>
    match monthLoopU 256 1 leap days with
    | none => none
    | some (m, days) => some ⟨yOff, m, days + 1, t / 60 / 60 % 24, t / 60 % 60, t % 60, 0⟩

/-- Check, for one remaining day count of a year, that the month loop stops on a day of the
month it returns and agrees with the loop over unbounded numbers. -/
def monthRangeCheck (leap days : Nat) : Bool :=
  match monthLoop 256 1 leap days with
  | none => false
  | some (m, d) =>
    decide (d + 1 ≤ monthLength4 (1 - leap) m ∧ monthLoopU 256 1 leap days = some (m, d))

/-- The `DateTime` that `RTC_DS1307::now()` builds from the seven registers it reads, before
it sets the sub-second field. -/
def chipDateTime (regs : Nat → Nat) : DateTime :=
  DateTime.ofFields ((bcd2bin (wireRead regs 0 6) + 2000) % 65536) (bcd2bin (wireRead regs 0 5))
    (bcd2bin (wireRead regs 0 4)) (bcd2bin (wireRead regs 0 2)) (bcd2bin (wireRead regs 0 1))
    (bcd2bin (wireRead regs 0 0 &&& 0x7F)) 0

/-- The bytes that `RTC_DS1307::adjust` sends after the register address 0. -/
def adjustBytes (dt : DateTime) : List Nat :=
  [bin2bcd dt.second, bin2bcd dt.minute, bin2bcd dt.hour, bin2bcd 0, bin2bcd dt.day,
    bin2bcd dt.month, bin2bcd ((dt.year + 65536 - 2000) % 65536), 0]

/-- The sub-second value `RTC_DS1307::now()` computes before it stores it in the field `ms`:
`long ms = curms - prevMillis; ms -= (u - prevUnixtime) * 1000; ms = constrain(ms, 0, 999)`. -/
def nowMs (s : RTC_DS1307) (curms u : Nat) : Int :=
  constrain (wrapLong
    (wrapLong (((curms + 4294967296 - s.prevMillis) % 4294967296 : Nat) : Int)
      - ((((u + 4294967296 - s.prevUnixtime) % 4294967296) * 1000 % 4294967296 : Nat) : Int)))
    0 999

/-! ## Lemmas about the two loops of the epoch decoder -/

theorem yearLoop_spec (fuel : Nat) : ∀ yOff days : Nat,
    days < 65536 → 365 * yOff + days < 93440 → days < 365 * fuel →
    ∃ y d, yearLoop fuel yOff days = some (y, (if y % 4 = 0 then 1 else 0), d) ∧
      d < 365 + (if y % 4 = 0 then 1 else 0) ∧ y < 256 ∧ yOff ≤ y ∧
      daysBeforeYear y + d = daysBeforeYear yOff + days := by
  induction fuel with
  | zero => intro yOff days _ _ h; omega
  | succ n ih =>
    intro yOff days hd hb hf
    unfold yearLoop
    by_cases h4 : yOff % 4 = 0
    · by_cases hlt : days < 366
      · refine ⟨yOff, days, ?_, ?_, by omega, le_refl _, rfl⟩
        · simp [h4, hlt]
        · simp [h4, hlt]
      · have hy : (yOff + 1) % 256 = yOff + 1 := by omega
        have hd2 : (days + 65170) % 65536 = days - 366 := by omega
        obtain ⟨y, d, h1, h2, h3, h5, h6⟩ := ih (yOff + 1) (days - 366)
          (by omega) (by omega) (by omega)
        refine ⟨y, d, ?_, h2, h3, by omega, ?_⟩
        · simp [h4, hlt, hy, hd2, h1]
        · rw [h6]; unfold daysBeforeYear; omega
    · by_cases hlt : days < 365
      · refine ⟨yOff, days, ?_, ?_, by omega, le_refl _, rfl⟩
        · simp [h4, hlt]
        · simp [h4, hlt]
      · have hy : (yOff + 1) % 256 = yOff + 1 := by omega
        have hd2 : (days + 65171) % 65536 = days - 365 := by omega
        obtain ⟨y, d, h1, h2, h3, h5, h6⟩ := ih (yOff + 1) (days - 365)
          (by omega) (by omega) (by omega)
        refine ⟨y, d, ?_, h2, h3, by omega, ?_⟩
        · simp [h4, hlt, hy, hd2, h1]
        · rw [h6]; unfold daysBeforeYear; omega

set_option maxRecDepth 100000 in
theorem monthLoopCheck_all : ∀ leap < 2, ∀ days < 365 + leap,
    monthLoopCheck leap days = true := by
  decide

theorem monthLoop_spec (leap days : Nat) (hl : leap < 2) (hd : days < 365 + leap) :
    ∃ m d, monthLoop 256 1 leap days = some (m, d) ∧ 1 ≤ m ∧ m ≤ 12 ∧ d < 31 ∧
      date2daysLoop 256 1 m (d + 1)
        = some (days + 1 - (if m > 2 ∧ leap = 1 then 1 else 0)) := by
  have h := monthLoopCheck_all leap hl days hd
  unfold monthLoopCheck at h
  split at h
  · exact absurd h (by simp)
  · next m d heq => exact ⟨m, d, heq, of_decide_eq_true h⟩

theorem wrapLong_modEq (x : Int) : wrapLong x ≡ x [ZMOD 4294967296] := by
  unfold Int.ModEq wrapLong
  omega

/-- The value of a `long` expression reduced to 32 bits and stored in a `uint32_t`. -/
theorem time2long_toNat (days h m s : Nat) :
    ((time2long days h m s) % 4294967296).toNat
      = (((days * 24 + h) * 60 + m) * 60 + s) % 4294967296 := by
  have h1 := wrapLong_modEq ((days : Int) * 24)
  have h2 := (wrapLong_modEq (wrapLong ((days : Int) * 24) + h)).trans (h1.add_right h)
  have h3 := (wrapLong_modEq (wrapLong (wrapLong ((days : Int) * 24) + h) * 60)).trans
    (h2.mul_right 60)
  have h4 := (wrapLong_modEq
    (wrapLong (wrapLong (wrapLong ((days : Int) * 24) + h) * 60) + m)).trans (h3.add_right m)
  have h5 := (wrapLong_modEq
    (wrapLong (wrapLong (wrapLong (wrapLong ((days : Int) * 24) + h) * 60) + m) * 60
      + s)).trans ((h4.mul_right 60).add_right s)
  have h6 : time2long days h m s % 4294967296
      = ((((days : Int) * 24 + h) * 60 + m) * 60 + s) % 4294967296 := h5
  rw [h6]
  omega

/-- The decoder inverts the day count and the split into hours, minutes and seconds, for
every 32-bit count of seconds since 2000-01-01. -/
theorem decode_spec (t : Nat) (ht : t < 4294967296) :
    ∃ dt, DateTime.decode t = some dt ∧
      date2days dt.yOff dt.m dt.d = some (t / 86400) ∧
      dt.hh = t / 3600 % 24 ∧ dt.mm = t / 60 % 60 ∧ dt.ss = t % 60 ∧ dt.ms = 0 ∧
      1 ≤ dt.m ∧ dt.m ≤ 12 ∧ 1 ≤ dt.d ∧ dt.d ≤ 31 ∧ dt.yOff ≤ 136 ∧
      daysBeforeYear dt.yOff ≤ t / 86400 ∧ t / 86400 < daysBeforeYear (dt.yOff + 1) := by
  have hdays : t / 60 / 60 / 24 = t / 86400 := by omega
  have hlt : t / 86400 < 49711 := by omega
  obtain ⟨y, d, hy1, hy2, hy3, -, hy5⟩ :=
    yearLoop_spec 256 0 (t / 86400) (by omega) (by omega) (by omega)
  obtain ⟨m, d2, hm1, hm2, hm3, hm4, hm5⟩ :=
    monthLoop_spec (if y % 4 = 0 then 1 else 0) d (by split_ifs <;> omega) hy2
  have hdb0 : daysBeforeYear 0 = 0 := rfl
  rw [hdb0, Nat.zero_add] at hy5
  have hyb : y ≤ 136 := by unfold daysBeforeYear at hy5; omega
  refine ⟨⟨y, m, (d2 + 1) % 256, t / 60 / 60 % 24 % 256, t / 60 % 60 % 256, t % 60 % 256, 0⟩,
    ?_, ?_, ?_, ?_, ?_, rfl, hm2, hm3, ?_, ?_, hyb, ?_, ?_⟩
  · simp only [DateTime.decode, hdays, Nat.mod_eq_of_lt (show t / 86400 < 65536 by omega),
      hy1, hm1]
  · have hd2 : (d2 + 1) % 256 = d2 + 1 := by omega
    simp only [date2days, hd2, hm5]
    have hy2000 : ¬ (y ≥ 2000) := by omega
    simp only [hy2000, if_false]
    unfold daysBeforeYear at hy5
    have e1 : 365 * y % 65536 = 365 * y := by omega
    have e2 : (y + 3) % 65536 = y + 3 := by omega
    simp only [Option.some.injEq, e1, e2]
    by_cases h4 : y % 4 = 0
    · simp only [h4, if_true] at hy2 ⊢
      by_cases hm : m > 2
      · simp only [hm, true_and, and_true, if_true]
        have e3 : (d + 1 - 1 + 1) % 65536 = d + 1 := by omega
        rw [e3]; omega
      · simp only [hm, false_and, if_false]; omega
    · simp only [h4, if_false, and_false] at hy2 ⊢
      simp only [Nat.zero_ne_one, and_false, if_false]
      omega
  · show t / 60 / 60 % 24 % 256 = t / 3600 % 24; omega
  · show t / 60 % 60 % 256 = t / 60 % 60; omega
  · show t % 60 % 256 = t % 60; omega
  · show 1 ≤ (d2 + 1) % 256; omega
  · show (d2 + 1) % 256 ≤ 31; omega
  · show daysBeforeYear y ≤ t / 86400; omega
  · show t / 86400 < daysBeforeYear (y + 1)
    unfold daysBeforeYear at hy5 ⊢
    split_ifs at hy2 <;> omega

/-- Days, hours, minutes and seconds recompose to the count of seconds. -/
theorem hms_sum (t0 : Nat) :
    ((t0 / 86400 * 24 + t0 / 3600 % 24) * 60 + t0 / 60 % 60) * 60 + t0 % 60 = t0 := by
  have e1 : t0 / 3600 = t0 / 60 / 60 := by rw [Nat.div_div_eq_div_mul]
  have e2 : t0 / 86400 = t0 / 60 / 60 / 24 := by
    rw [Nat.div_div_eq_div_mul, Nat.div_div_eq_div_mul]
  rw [e1, e2]
  omega

/-- A count of seconds built from days, hours, minutes and seconds splits back into them. -/
theorem hms_split (days hh mm ss : Nat) (hhh : hh ≤ 23) (hmm : mm ≤ 59) (hss : ss ≤ 59) :
    (((days * 24 + hh) * 60 + mm) * 60 + ss) % 60 = ss ∧
    (((days * 24 + hh) * 60 + mm) * 60 + ss) / 60 % 60 = mm ∧
    (((days * 24 + hh) * 60 + mm) * 60 + ss) / 60 / 60 % 24 = hh ∧
    (((days * 24 + hh) * 60 + mm) * 60 + ss) / 60 / 60 / 24 = days := by
  have e1 : (((days * 24 + hh) * 60 + mm) * 60 + ss) / 60 = (days * 24 + hh) * 60 + mm := by
    omega
  have e2 : ((days * 24 + hh) * 60 + mm) / 60 = days * 24 + hh := by omega
  rw [e1, e2]
  refine ⟨by omega, by omega, by omega, by omega⟩

theorem ofUnixtime_unixtime (t : Nat) (ht : t < 4294967296) :
    ∃ dt, DateTime.ofUnixtime t = some dt ∧ dt.unixtime = some t := by
  have hex : ∃ t0, t0 < 4294967296 ∧ (t0 + 946684800) % 4294967296 = t ∧
      (t % 4294967296 + 4294967296 - SECONDS_FROM_1970_TO_2000) % 4294967296 = t0 :=
    ⟨_, Nat.mod_lt _ (by decide), by unfold SECONDS_FROM_1970_TO_2000; omega, rfl⟩
  obtain ⟨t0, ht0, hback, hdef⟩ := hex
  obtain ⟨dt, h1, h2, h3, h4, h5, -⟩ := decode_spec t0 ht0
  refine ⟨dt, by unfold DateTime.ofUnixtime; rw [hdef]; exact h1, ?_⟩
  have hsum := hms_sum t0
  simp only [DateTime.unixtime, h2, time2long_toNat, h3, h4, h5, Option.some.injEq, hsum,
    Nat.mod_eq_of_lt ht0]
  exact hback

set_option maxRecDepth 100000 in
theorem monthRoundCheck_all : ∀ leap < 2, ∀ m < 13, ∀ d < 32,
    monthRoundCheck leap m d = true := by
  decide

theorem yearLoop_of_valid (y doy : Nat) (hy : y ≤ 136)
    (hdoy : doy < 365 + (if y % 4 = 0 then 1 else 0)) :
    yearLoop 256 0 (daysBeforeYear y + doy) = some (y, (if y % 4 = 0 then 1 else 0), doy) := by
  have hb : daysBeforeYear y + doy < 50041 := by
    unfold daysBeforeYear; split_ifs at hdoy <;> omega
  obtain ⟨y2, d2, h1, h2, -, -, h5⟩ :=
    yearLoop_spec 256 0 (daysBeforeYear y + doy) (by omega) (by omega) (by omega)
  have hdb0 : daysBeforeYear 0 = 0 := rfl
  rw [hdb0, Nat.zero_add] at h5
  have hyy : y2 = y := by
    unfold daysBeforeYear at h5
    split_ifs at hdoy h2 <;> omega
  subst hyy
  have hdd : d2 = doy := by omega
  subst hdd
  exact h1

/-- For a date of the decoder's calendar, `date2days` does not overflow and the month loop of
the decoder recovers month and day from the day of the year. -/
theorem date2days_valid (year yOff m d : Nat) (hyear : year = yOff ∨ year = 2000 + yOff)
    (hy : yOff ≤ 99) (hm1 : 1 ≤ m) (hm2 : m ≤ 12) (hd1 : 1 ≤ d)
    (hd2 : d ≤ monthLength4 yOff m) :
    ∃ doy, doy < 365 + (if yOff % 4 = 0 then 1 else 0) ∧
      date2days year m d = some (daysBeforeYear yOff + doy) ∧
      monthLoop 256 1 (if yOff % 4 = 0 then 1 else 0) doy = some (m, d - 1) := by
  have hlen : monthLength4 yOff m ≤ 31 ∧
      monthLength4 yOff m = monthLength4 (1 - (if yOff % 4 = 0 then 1 else 0)) m := by
    have hm : m = 1 ∨ m = 2 ∨ m = 3 ∨ m = 4 ∨ m = 5 ∨ m = 6 ∨ m = 7 ∨ m = 8 ∨ m = 9 ∨
        m = 10 ∨ m = 11 ∨ m = 12 := by omega
    by_cases h4 : yOff % 4 = 0 <;>
      rcases hm with h | h | h | h | h | h | h | h | h | h | h | h <;>
      subst h <;> simp [monthLength4, daysInMonth, h4]
  have hchk := monthRoundCheck_all (if yOff % 4 = 0 then 1 else 0) (by split_ifs <;> omega)
    m (by omega) d (by omega)
  unfold monthRoundCheck at hchk
  rw [if_pos ⟨hm1, hd1, hlen.2 ▸ hd2⟩] at hchk
  split at hchk
  · exact absurd hchk (by simp)
  · next n hn =>
    obtain ⟨hn1, hn2, hn3⟩ := of_decide_eq_true hchk
    refine ⟨_, hn2, ?_, hn3⟩
    have hyn : (if year ≥ 2000 then year - 2000 else year) = yOff := by
      rcases hyear with h | h <;> subst h
      · rw [if_neg (by omega)]
      · rw [if_pos (by omega)]; omega
    have e1 : 365 * yOff % 65536 = 365 * yOff := by omega
    have e2 : (yOff + 3) % 65536 = yOff + 3 := by omega
    simp only [date2days, hyn, hn, e1, e2, Option.some.injEq]
    unfold daysBeforeYear
    by_cases h4 : yOff % 4 = 0
    · simp only [h4, if_true, and_true] at hn2 ⊢
      by_cases hm : m > 2
      · simp only [hm, if_true] at hn2 ⊢
        omega
      · simp only [hm, if_false] at hn2 ⊢
        omega
    · simp only [h4, if_false, and_false, Nat.zero_ne_one] at hn2 ⊢
      omega

/-- Decoding the seconds count of a date of the decoder's calendar gives the date back. -/
theorem decode_encode (yOff m d hh mm ss doy : Nat) (hy : yOff ≤ 99)
    (hdoy : doy < 365 + (if yOff % 4 = 0 then 1 else 0))
    (hml : monthLoop 256 1 (if yOff % 4 = 0 then 1 else 0) doy = some (m, d - 1))
    (hd1 : 1 ≤ d) (hd2 : d ≤ 31) (hhh : hh ≤ 23) (hmm : mm ≤ 59) (hss : ss ≤ 59) :
    DateTime.decode ((((daysBeforeYear yOff + doy) * 24 + hh) * 60 + mm) * 60 + ss)
      = some ⟨yOff, m, d, hh, mm, ss, 0⟩ := by
  have hyl := yearLoop_of_valid yOff doy (by omega) hdoy
  have hb : daysBeforeYear yOff + doy < 36525 := by
    unfold daysBeforeYear; split_ifs at hdoy <;> omega
  generalize daysBeforeYear yOff + doy = days at hyl hb
  obtain ⟨h1, h2, h3, h4⟩ := hms_split days hh mm ss hhh hmm hss
  have g1 : ss % 256 = ss := by omega
  have g2 : mm % 256 = mm := by omega
  have g3 : hh % 256 = hh := by omega
  have g4 : days % 65536 = days := by omega
  have h5 : (d - 1 + 1) % 256 = d := by omega
  simp only [DateTime.decode, h1, h2, h3, h4, g1, g2, g3, g4, hyl, hml, h5]

/-- The field constructor stores the year as an offset from 2000. -/
theorem ofFields_eq (year yOff m d hh mm ss ms : Nat)
    (hyear : year = yOff ∨ year = 2000 + yOff) (hy : yOff ≤ 255) (hy2 : yOff < 2000) :
    DateTime.ofFields year m d hh mm ss ms = ⟨yOff, m, d, hh, mm, ss, ms % 256⟩ := by
  have hyn : (if year ≥ 2000 then year - 2000 else year) % 256 = yOff := by
    rcases hyear with h | h <;> subst h
    · rw [if_neg (by omega)]; omega
    · rw [if_pos (by omega)]; omega
  simp only [DateTime.ofFields, hyn]

/-! ## The code against the Gregorian calendar -/

theorem yearLength_2000 (n : Nat) (hn : n < 100) :
    yearLength (2000 + n) = 365 + (if n % 4 = 0 then 1 else 0) := by
  unfold yearLength isLeapYear
  by_cases h4 : n % 4 = 0
  · have h : (2000 + n) % 4 = 0 ∧ ((2000 + n) % 100 ≠ 0 ∨ (2000 + n) % 400 = 0) := by omega
    simp [h4, h]
  · have h : ¬ ((2000 + n) % 4 = 0 ∧ ((2000 + n) % 100 ≠ 0 ∨ (2000 + n) % 400 = 0)) := by
      omega
    simp [h4, h]

theorem daysOfYears_2000 (n : Nat) (hn : n ≤ 100) : daysOfYears 2000 n = daysBeforeYear n := by
  induction n with
  | zero => rfl
  | succ k ih =>
    unfold daysOfYears
    rw [ih (by omega), yearLength_2000 k (by omega)]
    unfold daysBeforeYear
    split_ifs <;> omega

theorem daysOfYears_1970 (n : Nat) : daysOfYears 1970 (30 + n) = 10957 + daysOfYears 2000 n := by
  induction n with
  | zero => decide
  | succ k ih =>
    have e : 30 + (k + 1) = (30 + k) + 1 := by omega
    rw [e]
    unfold daysOfYears
    rw [ih]
    have e2 : 1970 + (30 + k) = 2000 + k := by omega
    rw [e2]
    omega

/-- Between 1970 and 2000 lie 10957 days, that is 946684800 seconds. -/
theorem civilDays_1970 (y m d : Nat) (hy : 2000 ≤ y) :
    civilDays 1970 y m d = 10957 + civilDays 2000 y m d := by
  unfold civilDays
  have e : y - 1970 = 30 + (y - 2000) := by omega
  rw [e, daysOfYears_1970]
  omega

/-- On a date of the Gregorian calendar of the years 2000..2099, `date2days` is the number of
days since 2000-01-01. -/
theorem date2days_civil (year yOff m d : Nat) (hyear : year = yOff ∨ year = 2000 + yOff)
    (hy : yOff ≤ 99) (hv : validDate (2000 + yOff) m d) :
    date2days year m d = some (civilDays 2000 (2000 + yOff) m d) ∧
      civilDays 2000 (2000 + yOff) m d < 36525 := by
  obtain ⟨hm1, hm2, hd1, hd2⟩ := hv
  have hyn : (if year ≥ 2000 then year - 2000 else year) = yOff := by
    rcases hyear with h | h <;> subst h
    · rw [if_neg (by omega)]
    · rw [if_pos (by omega)]; omega
  have e0 : 2000 + yOff - 2000 = yOff := by omega
  have e1 : 365 * yOff % 65536 = 365 * yOff := by omega
  have e2 : (yOff + 3) % 65536 = yOff + 3 := by omega
  have hleap : isLeapYear (2000 + yOff) = decide (yOff % 4 = 0) := by
    unfold isLeapYear
    by_cases h4 : yOff % 4 = 0
    · have h : (2000 + yOff) % 4 = 0 ∧
          ((2000 + yOff) % 100 ≠ 0 ∨ (2000 + yOff) % 400 = 0) := by omega
      simp [h4, h]
    · have h : ¬ ((2000 + yOff) % 4 = 0 ∧
          ((2000 + yOff) % 100 ≠ 0 ∨ (2000 + yOff) % 400 = 0)) := by omega
      simp [h4, h]
  unfold civilDays
  rw [e0, daysOfYears_2000 yOff (by omega)]
  unfold daysBeforeYear
  simp only [date2days, hyn, e1, e2]
  have hm : m = 1 ∨ m = 2 ∨ m = 3 ∨ m = 4 ∨ m = 5 ∨ m = 6 ∨ m = 7 ∨ m = 8 ∨ m = 9 ∨
      m = 10 ∨ m = 11 ∨ m = 12 := by omega
  by_cases h4 : yOff % 4 = 0 <;>
    rcases hm with h | h | h | h | h | h | h | h | h | h | h | h <;>
    subst h <;>
    simp [monthLength, hleap, h4] at hd2 <;>
    simp [date2daysLoop, pgm_read_byte, daysInMonth, daysBeforeMonth, monthLength, hleap, h4] <;>
    omega

/-- On a date of the Gregorian calendar of the years 2000..2099, `dayOfWeek()` is the day of
the week, 0 = Sunday, ..., 6 = Saturday. -/
theorem dayOfWeek_eq (year yOff m d hh mm ss ms : Nat)
    (hyear : year = yOff ∨ year = 2000 + yOff) (hy : yOff ≤ 99)
    (hv : validDate (2000 + yOff) m d) :
    (DateTime.ofFields year m d hh mm ss ms).dayOfWeek
      = some (civilWeekday (2000 + yOff) m d) := by
  obtain ⟨hd, hb⟩ := date2days_civil yOff yOff m d (Or.inl rfl) hy hv
  rw [ofFields_eq year yOff m d hh mm ss ms hyear (by omega) (by omega)]
  simp only [DateTime.dayOfWeek, hd, Option.some.injEq]
  unfold civilWeekday
  rw [civilDays_1970 _ _ _ (by omega)]
  omega

/-! ## Lemmas about the string constructor -/

theorem conv2d_digits (p : List Nat) (off n : Nat) (hn : n ≤ 99)
    (h0 : charAt p off = some (48 + n / 10)) (h1 : charAt p (off + 1) = some (48 + n % 10)) :
    conv2d p off = some n := by
  simp only [conv2d, h0, h1, Option.some.injEq]
  have hc : 48 ≤ 48 + n / 10 ∧ 48 + n / 10 ≤ 57 := by omega
  rw [if_pos hc]
  omega

theorem conv2d_padded (p : List Nat) (off pad n : Nat) (hn : n ≤ 9)
    (hpad : pad = 32 ∨ pad = 48)
    (h0 : charAt p off = some pad) (h1 : charAt p (off + 1) = some (48 + n)) :
    conv2d p off = some n := by
  simp only [conv2d, h0, h1, Option.some.injEq]
  rcases hpad with h | h <;> subst h <;> simp <;> omega

theorem ofStrings_texts (m0 k pad dd yy hh mm ss : Nat) (hk1 : 1 ≤ k) (hk2 : k ≤ 12)
    (hpad : pad = 32 ∨ pad = 48) (hd1 : 1 ≤ dd) (hd2 : dd ≤ 31) (hyy : yy ≤ 99)
    (hhh : hh ≤ 99) (hmm : mm ≤ 99) (hss : ss ≤ 99) :
    DateTime.ofStrings m0 (dateText k pad dd yy) (timeText hh mm ss)
      = some ⟨yy, k, dd, hh, mm, ss, 0⟩ := by
  have ht0 : conv2d (timeText hh mm ss) 0 = some hh :=
    conv2d_digits _ _ _ hhh (by simp [timeText, twoDigits, charAt])
      (by simp [timeText, twoDigits, charAt])
  have ht3 : conv2d (timeText hh mm ss) 3 = some mm :=
    conv2d_digits _ _ _ hmm (by simp [timeText, twoDigits, charAt])
      (by simp [timeText, twoDigits, charAt])
  have ht6 : conv2d (timeText hh mm ss) 6 = some ss :=
    conv2d_digits _ _ _ hss (by simp [timeText, twoDigits, charAt])
      (by simp [timeText, twoDigits, charAt])
  have hk : k = 1 ∨ k = 2 ∨ k = 3 ∨ k = 4 ∨ k = 5 ∨ k = 6 ∨ k = 7 ∨ k = 8 ∨ k = 9 ∨
      k = 10 ∨ k = 11 ∨ k = 12 := by omega
  have hm : parseMonth m0 (dateText k pad dd yy) = some k := by
    rcases hk with h | h | h | h | h | h | h | h | h | h | h | h <;> subst h <;>
      simp [parseMonth, dateText, monthAbbrev, cstr, charAt, twoDigits, dayChars]
  have hy : conv2d (dateText k pad dd yy) 9 = some yy := by
    refine conv2d_digits _ _ _ hyy ?_ ?_ <;>
      rcases hk with h | h | h | h | h | h | h | h | h | h | h | h <;> subst h <;>
      by_cases h10 : dd < 10 <;>
      simp [dateText, monthAbbrev, cstr, charAt, twoDigits, dayChars, h10]
  have hd : conv2d (dateText k pad dd yy) 4 = some dd := by
    by_cases h10 : dd < 10
    · refine conv2d_padded _ _ pad _ (by omega) hpad ?_ ?_ <;>
        rcases hk with h | h | h | h | h | h | h | h | h | h | h | h <;> subst h <;>
        simp [dateText, monthAbbrev, cstr, charAt, twoDigits, dayChars, h10]
    · refine conv2d_digits _ _ _ (by omega) ?_ ?_ <;>
        rcases hk with h | h | h | h | h | h | h | h | h | h | h | h <;> subst h <;>
        simp [dateText, monthAbbrev, cstr, charAt, twoDigits, dayChars, h10]
  simp only [DateTime.ofStrings, hy, hm, hd, ht0, ht3, ht6]

/-! ## Lemmas about packed decimal -/

theorem bcd_round_all : ∀ v < 100, bcd2bin (bin2bcd v) = v ∧
    bin2bcd v = 16 * (v / 10) + v % 10 ∧ bin2bcd v < 256 ∧
    bin2bcd v >>> 4 = v / 10 ∧ bin2bcd v &&& 15 = v % 10 := by
  decide

set_option maxRecDepth 100000 in
theorem bcd_decode_all : ∀ b < 256, b >>> 4 ≤ 9 → b &&& 15 ≤ 9 →
    bcd2bin b = 10 * (b >>> 4) + (b &&& 15) ∧ bin2bcd (bcd2bin b) = b := by
  decide

theorem byte_round_all : ∀ v < 100, bcd2bin (bin2bcd v % 256) = v := by
  decide

theorem sec_round_all : ∀ v < 60, bcd2bin (bin2bcd v % 256 &&& 0x7F) = v ∧ bin2bcd v < 128 := by
  decide

theorem sec_bit_all : ∀ v < 60, (bin2bcd v).testBit 7 = false := by
  decide

set_option maxRecDepth 100000 in
theorem isrunning_byte : ∀ b < 256,
    ((if b >>> 7 = 0 then (1 : Nat) else 0) ≠ 0 ↔ b.testBit 7 = false) ∧
    (if b >>> 7 = 0 then (1 : Nat) else 0) = (if b < 128 then 1 else 0) := by
  decide

/-! ## Lemmas about the chip clock -/

theorem now_eq (s : RTC_DS1307) (regs : Nat → Nat) (millis : Nat) :
    RTC_DS1307.now s regs millis =
      match (chipDateTime regs).unixtime with
      | none => none
      | some u =>
        some (⟨(chipDateTime regs).yOff, (chipDateTime regs).m, (chipDateTime regs).d,
          (chipDateTime regs).hh, (chipDateTime regs).mm, (chipDateTime regs).ss,
          (nowMs s (millis % 4294967296) u % 256).toNat⟩, ⟨millis % 4294967296, u⟩) := rfl

theorem adjust_eq (s : RTC_DS1307) (regs : Nat → Nat) (dt : DateTime) (millis : Nat) :
    RTC_DS1307.adjust s regs dt millis =
      match dt.unixtime with
      | none => none
      | some u => some (wireWrite regs 0 (adjustBytes dt), ⟨millis % 4294967296, u⟩) := rfl

theorem unixtime_ms (c : DateTime) (ms : Nat) :
    DateTime.unixtime ⟨c.yOff, c.m, c.d, c.hh, c.mm, c.ss, ms⟩ = c.unixtime := by
  cases c
  rfl

/-- When the registers hold a date whose `unixtime()` is defined, `now()` returns. -/
theorem now_some (s : RTC_DS1307) (regs : Nat → Nat) (t u : Nat)
    (h : (chipDateTime regs).unixtime = some u) :
    ∃ dt, RTC_DS1307.now s regs t = some (dt, ⟨t % 4294967296, u⟩) ∧ dt.unixtime = some u ∧
      dt.ms = (nowMs s (t % 4294967296) u % 256).toNat := by
  refine ⟨⟨(chipDateTime regs).yOff, (chipDateTime regs).m, (chipDateTime regs).d,
    (chipDateTime regs).hh, (chipDateTime regs).mm, (chipDateTime regs).ss,
    (nowMs s (t % 4294967296) u % 256).toNat⟩, ?_, ?_, ?_⟩
  · rw [now_eq, h]
  · exact (unixtime_ms _ _).trans h
  · simp only

theorem date2days_some (y m d : Nat) (hm : m ≤ 12) : ∃ n, date2days y m d = some n := by
  interval_cases m <;> simp [date2days, date2daysLoop, pgm_read_byte, daysInMonth]

theorem unixtime_some (dt : DateTime) (hm : dt.m ≤ 12) : ∃ u, dt.unixtime = some u := by
  obtain ⟨n, hn⟩ := date2days_some dt.yOff dt.m dt.d hm
  simp only [DateTime.unixtime, hn]
  exact ⟨_, rfl⟩

theorem chipDateTime_adjust (regs : Nat → Nat) (T : DateTime)
    (hy : T.yOff ≤ 99) (hm2 : T.m ≤ 99) (hd2 : T.d ≤ 99)
    (hhh : T.hh ≤ 99) (hmm : T.mm ≤ 99) (hss : T.ss ≤ 59) :
    chipDateTime (wireWrite regs 0 (adjustBytes T))
      = ⟨T.yOff, T.m, T.d, T.hh, T.mm, T.ss, 0⟩ := by
  have hyear : (T.year + 63536) % 65536 = T.yOff := by
    unfold DateTime.year; omega
  have e0 := (sec_round_all T.ss (by omega)).1
  have e1 := byte_round_all T.mm (by omega)
  have e2 := byte_round_all T.hh (by omega)
  have e4 := byte_round_all T.d (by omega)
  have e5 := byte_round_all T.m (by omega)
  have e6 := byte_round_all T.yOff (by omega)
  have ey : (if (T.yOff + 2000) % 65536 ≥ 2000 then (T.yOff + 2000) % 65536 - 2000
      else (T.yOff + 2000) % 65536) % 256 = T.yOff := by
    have h : (T.yOff + 2000) % 65536 = T.yOff + 2000 := by omega
    rw [h, if_pos (by omega)]; omega
  simp [chipDateTime, wireRead, wireWrite, adjustBytes, hyear, DateTime.second,
    DateTime.minute, DateTime.hour, DateTime.day, DateTime.month, DateTime.ofFields,
    e0, e1, e2, e4, e5, e6, ey]

theorem nowMs_same (s : RTC_DS1307) (t1 t2 u : Nat) (hs1 : s.prevMillis = t1)
    (hs2 : s.prevUnixtime = u) (h12 : t1 ≤ t2) (hd : t2 - t1 ≤ 999) :
    nowMs s t2 u = ((t2 - t1 : Nat) : Int) := by
  unfold nowMs
  rw [hs1, hs2]
  have e1 : (t2 + 4294967296 - t1) % 4294967296 = t2 - t1 := by omega
  have e2 : (u + 4294967296 - u) % 4294967296 * 1000 % 4294967296 = 0 := by
    have : u + 4294967296 - u = 4294967296 := by omega
    rw [this]
  rw [e1, e2]
  unfold wrapLong constrain
  generalize t2 - t1 = k at hd
  have h1 : (((k : Int) + 2147483648) % 4294967296 - 2147483648) = k := by omega
  rw [h1]
  have h2 : ((k : Int) - ((0 : Nat) : Int) + 2147483648) % 4294967296 - 2147483648 = k := by
    omega
  rw [h2]
  split_ifs <;> omega

/-! ## Lemmas about the tick clock -/

theorem millis_now_of_offset (s1 : RTC_Millis) (r t : Nat) (hr : r < 4294967296)
    (ht : ((s1.offset + ((r / 1000 : Nat) : Int)) % 4294967296).toNat = t)
    (ht2 : t < 4294967296) :
    ∃ dt, RTC_Millis.now s1 r = some dt ∧ dt.unixtime = some t ∧ dt.ms = r % 256 := by
  have e1 : r % 4294967296 = r := by omega
  obtain ⟨dt0, hd1, hd2⟩ := ofUnixtime_unixtime t ht2
  refine ⟨⟨dt0.yOff, dt0.m, dt0.d, dt0.hh, dt0.mm, dt0.ss, r % 256⟩, ?_,
    (unixtime_ms _ _).trans hd2, ?_⟩
  · unfold RTC_Millis.now
    simp only [e1, ht, hd1, Option.map_some']
  · simp only

theorem millis_adjust_eq (s : RTC_Millis) (T : DateTime) (R U : Nat) (hU : T.unixtime = some U)
    (hR : R < 2147483648) :
    RTC_Millis.adjust s T R
      = some ⟨wrapLong ((U : Int) - ((R / 1000 : Nat) : Int)), ((R % 1000 : Nat) : Int)⟩ := by
  have e1 : R % 4294967296 = R := by omega
  have e2 : wrapLong ((R : Nat) : Int) = (R : Int) := by unfold wrapLong; omega
  simp only [RTC_Millis.adjust, hU, e1, e2]
  rfl

/-- The tick clock set at a tick reading below `2^31` and read at a later reading. -/
theorem millis_now_eq (s : RTC_Millis) (T : DateTime) (R r U : Nat)
    (hU : T.unixtime = some U) (hR : R < 2147483648) (hRr : R ≤ r) (hr : r < 4294967296)
    (hb : U + r / 1000 - R / 1000 < 4294967296) :
    ∃ s1 dt, RTC_Millis.adjust s T R = some s1 ∧ RTC_Millis.now s1 r = some dt ∧
      dt.unixtime = some (U + r / 1000 - R / 1000) ∧ dt.ms = r % 256 := by
  have e1 : r % 4294967296 = r := by omega
  have e3 : ((wrapLong ((U : Int) - ((R / 1000 : Nat) : Int)) + ((r / 1000 : Nat) : Int))
      % 4294967296).toNat = U + r / 1000 - R / 1000 := by
    unfold wrapLong; omega
  obtain ⟨dt, h1, h2, h3⟩ := millis_now_of_offset
    ⟨wrapLong ((U : Int) - ((R / 1000 : Nat) : Int)), ((R % 1000 : Nat) : Int)⟩ r
    (U + r / 1000 - R / 1000) hr e3 hb
  exact ⟨_, dt, millis_adjust_eq s T R U hU hR, h1, h2, h3⟩

theorem date2days_bound (y m d : Nat) (hy : y ≤ 99) (hm1 : 1 ≤ m) (hm2 : m ≤ 12)
    (hd1 : 1 ≤ d) (hd2 : d ≤ 31) : ∃ n, date2days y m d = some n ∧ n < 36600 := by
  have e1 : 365 * y % 65536 = 365 * y := by omega
  have e2 : (y + 3) % 65536 = y + 3 := by omega
  have hy2 : ¬ (y ≥ 2000) := by omega
  have hc : (y + 3) / 4 ≤ 25 := by omega
  have hA : 365 * y ≤ 36135 := by omega
  interval_cases m <;>
    simp [date2days, date2daysLoop, pgm_read_byte, daysInMonth, e1, e2, hy2] <;>
    (try split_ifs) <;>
    (generalize (y + 3) / 4 = c at hc ⊢; generalize 365 * y = A at hA ⊢; omega)

/-- The `unixtime()` of a timestamp of the years 2000..2099 is defined and lies in the
32-bit range with room to spare. -/
theorem unixtime_bound (T : DateTime) (hy : T.yOff ≤ 99) (hm1 : 1 ≤ T.m) (hm2 : T.m ≤ 12)
    (hd1 : 1 ≤ T.d) (hd2 : T.d ≤ 31) (hhh : T.hh ≤ 23) (hmm : T.mm ≤ 59) (hss : T.ss ≤ 59) :
    ∃ U, T.unixtime = some U ∧ 946684800 ≤ U ∧ U < 4108924800 := by
  obtain ⟨n, hn, hb⟩ := date2days_bound T.yOff T.m T.d hy hm1 hm2 hd1 hd2
  simp only [DateTime.unixtime, hn, time2long_toNat, SECONDS_FROM_1970_TO_2000]
  have hX : ((n * 24 + T.hh) * 60 + T.mm) * 60 + T.ss < 3162240000 := by omega
  generalize ((n * 24 + T.hh) * 60 + T.mm) * 60 + T.ss = X at hX
  refine ⟨_, rfl, ?_, ?_⟩ <;> omega

/-! ## Lemmas about overflow and field ranges in the epoch decoder -/

/-- The year loop of the code agrees with the loop over unbounded numbers: neither the 8-bit
year offset nor the 16-bit day counter overflows. -/
theorem yearLoop_eqU (fuel : Nat) : ∀ yOff days : Nat,
    days < 65536 → 365 * yOff + days < 93440 → days < 365 * fuel →
    yearLoop fuel yOff days = yearLoopU fuel yOff days := by
  induction fuel with
  | zero => intro yOff days _ _ h; omega
  | succ n ih =>
    intro yOff days hd hb hf
    unfold yearLoop yearLoopU
    by_cases h4 : yOff % 4 = 0
    · by_cases hlt : days < 366
      · simp [h4, hlt]
      · have hy : (yOff + 1) % 256 = yOff + 1 := by omega
        have hd2 : (days + 65170) % 65536 = days - 366 := by omega
        have h := ih (yOff + 1) (days - 366) (by omega) (by omega) (by omega)
        simp [h4, hlt, hy, hd2, h]
    · by_cases hlt : days < 365
      · simp [h4, hlt]
      · have hy : (yOff + 1) % 256 = yOff + 1 := by omega
        have hd2 : (days + 65171) % 65536 = days - 365 := by omega
        have h := ih (yOff + 1) (days - 365) (by omega) (by omega) (by omega)
        simp [h4, hlt, hy, hd2, h]

set_option maxRecDepth 100000 in
theorem monthRangeCheck_all : ∀ leap < 2, ∀ days < 365 + leap,
    monthRangeCheck leap days = true := by
  decide

/-- The decoder returns for every 32-bit count of seconds since 2000-01-01, without overflow
and with every field in range. -/
theorem decode_range (t : Nat) (ht : t < 4294967296) :
    ∃ dt, DateTime.decode t = some dt ∧ DateTime.decodeU t = some dt ∧
      1 ≤ dt.m ∧ dt.m ≤ 12 ∧ 1 ≤ dt.d ∧ dt.d ≤ monthLength4 dt.yOff dt.m ∧
      dt.hh ≤ 23 ∧ dt.mm ≤ 59 ∧ dt.ss ≤ 59 ∧ dt.ms = 0 ∧ dt.yOff ≤ 136 := by
  have hdays : t / 60 / 60 / 24 = t / 86400 := by omega
  have hlt : t / 86400 < 49711 := by omega
  obtain ⟨y, d, hy1, hy2, hy3, -, hy5⟩ :=
    yearLoop_spec 256 0 (t / 86400) (by omega) (by omega) (by omega)
  have hyU := yearLoop_eqU 256 0 (t / 86400) (by omega) (by omega) (by omega)
  rw [hy1] at hyU
  have hl : (if y % 4 = 0 then 1 else 0) < 2 := by split_ifs <;> omega
  obtain ⟨m, d2, hm1, hm2, hm3, hm4, -⟩ := monthLoop_spec (if y % 4 = 0 then 1 else 0) d hl hy2
  have hchk := monthRangeCheck_all (if y % 4 = 0 then 1 else 0) hl d hy2
  unfold monthRangeCheck at hchk
  rw [hm1] at hchk
  obtain ⟨hr1, hr2⟩ := of_decide_eq_true hchk
  have hdb0 : daysBeforeYear 0 = 0 := rfl
  rw [hdb0, Nat.zero_add] at hy5
  have hyb : y ≤ 136 := by unfold daysBeforeYear at hy5; omega
  have hlen : monthLength4 (1 - (if y % 4 = 0 then 1 else 0)) m = monthLength4 y m := by
    unfold monthLength4
    by_cases h4 : y % 4 = 0 <;> simp [h4]
  have g1 : (d2 + 1) % 256 = d2 + 1 := by omega
  have g2 : t / 60 / 60 % 24 % 256 = t / 60 / 60 % 24 := by omega
  have g3 : t / 60 % 60 % 256 = t / 60 % 60 := by omega
  have g4 : t % 60 % 256 = t % 60 := by omega
  refine ⟨⟨y, m, d2 + 1, t / 60 / 60 % 24, t / 60 % 60, t % 60, 0⟩,
    ?_, ?_, hm2, hm3, ?_, ?_, ?_, ?_, ?_, rfl, hyb⟩
  · simp only [DateTime.decode, hdays, Nat.mod_eq_of_lt (show t / 86400 < 65536 by omega),
      hy1, hm1, g1, g2, g3, g4]
  · simp only [DateTime.decodeU, hdays, ← hyU, hr2]
  · show 1 ≤ d2 + 1; omega
  · show d2 + 1 ≤ monthLength4 y m; rw [← hlen]; exact hr1
  · show t / 60 / 60 % 24 ≤ 23; omega
  · show t / 60 % 60 ≤ 59; omega
  · show t % 60 ≤ 59; omega

/-! ## The claims -/

/-- C1. Epoch round trip, decode then encode: for every 32-bit Unix time `t` with
`946684800 ≤ t < 4102444800` (2000-01-01 00:00:00 up to but excluding 2100-01-01 00:00:00),
the epoch-seconds constructor returns a `DateTime` and `unixtime()` of it is exactly `t`. -/
theorem epoch_round_trip (t : Nat) (h1 : 946684800 ≤ t) (h2 : t < 4102444800) :
    ∃ dt, DateTime.ofUnixtime t = some dt ∧ dt.unixtime = some t :=
  ofUnixtime_unixtime t (by omega)

theorem epoch_round_trip_witness :
    946684800 ≤ 1261830896 ∧ 1261830896 < 4102444800 ∧
      ∃ dt, DateTime.ofUnixtime 1261830896 = some dt ∧ dt.unixtime = some 1261830896 :=
  ⟨by decide, by decide, epoch_round_trip 1261830896 (by decide) (by decide)⟩

/-- C2. Calendar round trip, encode then decode: for every valid calendar value (year offset
0..99, given as the offset or as the four-digit year; month 1..12; day between 1 and the
length of the month, February having 29 days exactly when the year offset is a multiple of
4; hour 0..23, minute 0..59, second 0..59) and every sub-second argument, `unixtime()` of the
constructed value is defined and the epoch-seconds constructor applied to it gives the same
year offset, month, day, hour, minute and second with sub-second field 0.  Moreover
`date2days(year, month, day) * 86400` seconds since 2000 decode to
`(year, month, day, 0, 0, 0)`; this covers the years 2001..2099 with days 1..28. -/
theorem calendar_round_trip (year yOff m d hh mm ss ms : Nat)
    (hyear : year = yOff ∨ year = 2000 + yOff) (hy : yOff ≤ 99)
    (hm1 : 1 ≤ m) (hm2 : m ≤ 12) (hd1 : 1 ≤ d) (hd2 : d ≤ monthLength4 yOff m)
    (hhh : hh ≤ 23) (hmm : mm ≤ 59) (hss : ss ≤ 59) :
    (∃ u, (DateTime.ofFields year m d hh mm ss ms).unixtime = some u ∧
      DateTime.ofUnixtime u = some ⟨yOff, m, d, hh, mm, ss, 0⟩) ∧
    (∃ n, date2days year m d = some n ∧
      DateTime.decode (n * 86400) = some ⟨yOff, m, d, 0, 0, 0, 0⟩) := by
  have hd31 : d ≤ 31 := by
    have hm : m = 1 ∨ m = 2 ∨ m = 3 ∨ m = 4 ∨ m = 5 ∨ m = 6 ∨ m = 7 ∨ m = 8 ∨ m = 9 ∨
        m = 10 ∨ m = 11 ∨ m = 12 := by omega
    have : monthLength4 yOff m ≤ 31 := by
      by_cases h4 : yOff % 4 = 0 <;>
        rcases hm with h | h | h | h | h | h | h | h | h | h | h | h <;>
        subst h <;> simp [monthLength4, daysInMonth, h4]
    omega
  constructor
  · obtain ⟨doy, hdoy, hdd, hml⟩ :=
      date2days_valid yOff yOff m d (Or.inl rfl) hy hm1 hm2 hd1 hd2
    have hdec := decode_encode yOff m d hh mm ss doy hy hdoy hml hd1 hd31 hhh hmm hss
    have hb : daysBeforeYear yOff + doy < 36525 := by
      unfold daysBeforeYear; split_ifs at hdoy <;> omega
    generalize daysBeforeYear yOff + doy = days at hdd hdec hb
    refine ⟨(((days * 24 + hh) * 60 + mm) * 60 + ss) + 946684800, ?_, ?_⟩
    · rw [ofFields_eq year yOff m d hh mm ss ms hyear (by omega) (by omega)]
      simp only [DateTime.unixtime, hdd, time2long_toNat, Option.some.injEq,
        SECONDS_FROM_1970_TO_2000]
      omega
    · have e : ((((days * 24 + hh) * 60 + mm) * 60 + ss + 946684800) % 4294967296
          + 4294967296 - SECONDS_FROM_1970_TO_2000) % 4294967296
          = ((days * 24 + hh) * 60 + mm) * 60 + ss := by
        unfold SECONDS_FROM_1970_TO_2000; omega
      unfold DateTime.ofUnixtime
      rw [e]
      exact hdec
  · obtain ⟨doy, hdoy, hdd, hml⟩ :=
      date2days_valid year yOff m d hyear hy hm1 hm2 hd1 hd2
    refine ⟨_, hdd, ?_⟩
    have hdec := decode_encode yOff m d 0 0 0 doy hy hdoy hml hd1 hd31 (by omega) (by omega)
      (by omega)
    have e : (daysBeforeYear yOff + doy) * 86400
        = (((daysBeforeYear yOff + doy) * 24 + 0) * 60 + 0) * 60 + 0 := by omega
    rw [e]
    exact hdec

theorem calendar_round_trip_witness :
    (∃ u, (DateTime.ofFields 2024 2 29 23 59 59 0).unixtime = some u ∧
      DateTime.ofUnixtime u = some ⟨24, 2, 29, 23, 59, 59, 0⟩) ∧
    (∃ n, date2days 2024 2 29 = some n ∧
      DateTime.decode (n * 86400) = some ⟨24, 2, 29, 0, 0, 0, 0⟩) :=
  calendar_round_trip 2024 24 2 29 23 59 59 0 (Or.inr rfl) (by decide) (by decide)
    (by decide) (by decide) (by decide) (by decide) (by decide) (by decide)

/-- C3. `unixtime()` is the civil timestamp: for every date of the Gregorian calendar with
year in 2001..2099 and every hour 0..23, minute 0..59, second 0..59, `date2days` is the number
of days from 2000-01-01 to the date, `unixtime()` is
`946684800 + 86400 * dayCount + 3600 * hour + 60 * minute + second`, and that number is the
count of seconds since 1970-01-01 00:00:00 without leap seconds. -/
theorem unixtime_civil (year m d hh mm ss ms : Nat) (hy1 : 2001 ≤ year) (hy2 : year ≤ 2099)
    (hv : validDate year m d) (hhh : hh ≤ 23) (hmm : mm ≤ 59) (hss : ss ≤ 59) :
    date2days year m d = some (civilDays 2000 year m d) ∧
    (DateTime.ofFields year m d hh mm ss ms).unixtime
      = some (946684800 + 86400 * civilDays 2000 year m d + 3600 * hh + 60 * mm + ss) ∧
    946684800 + 86400 * civilDays 2000 year m d + 3600 * hh + 60 * mm + ss
      = 86400 * civilDays 1970 year m d + 3600 * hh + 60 * mm + ss := by
  have hyear : year = 2000 + (year - 2000) := by omega
  have hv2 : validDate (2000 + (year - 2000)) m d := hyear ▸ hv
  obtain ⟨h1, _⟩ := date2days_civil year (year - 2000) m d (Or.inr hyear) (by omega) hv2
  obtain ⟨h2, hb⟩ := date2days_civil (year - 2000) (year - 2000) m d (Or.inl rfl) (by omega) hv2
  rw [← hyear] at h1 h2 hb
  refine ⟨h1, ?_, ?_⟩
  · rw [ofFields_eq year (year - 2000) m d hh mm ss ms (Or.inr hyear) (by omega) (by omega)]
    simp only [DateTime.unixtime, h2, time2long_toNat, Option.some.injEq,
      SECONDS_FROM_1970_TO_2000]
    omega
  · rw [civilDays_1970 _ _ _ (by omega)]
    omega

theorem unixtime_civil_witness :
    date2days 2009 12 26 = some (civilDays 2000 2009 12 26) ∧
    (DateTime.ofFields 2009 12 26 12 34 56 0).unixtime
      = some (946684800 + 86400 * civilDays 2000 2009 12 26 + 3600 * 12 + 60 * 34 + 56) ∧
    946684800 + 86400 * civilDays 2000 2009 12 26 + 3600 * 12 + 60 * 34 + 56
      = 86400 * civilDays 1970 2009 12 26 + 3600 * 12 + 60 * 34 + 56 :=
  unixtime_civil 2009 12 26 12 34 56 0 (by decide) (by decide) (by decide) (by decide)
    (by decide) (by decide)

/-- C4. `dayOfWeek()` encodes Saturday as 6: it returns 6 for 2000-01-01 and for 2009-12-26
(both Saturdays), and for every date of the Gregorian calendar from 2000-01-01 to 2099-12-31
it returns the day of the week of that date in the numbering 0 = Sunday, 1 = Monday, ...,
6 = Saturday. -/
theorem dayOfWeek_civil (year yOff m d hh mm ss ms : Nat)
    (hyear : year = yOff ∨ year = 2000 + yOff) (hy : yOff ≤ 99)
    (hv : validDate (2000 + yOff) m d) :
    ((DateTime.ofFields 2000 1 1 0 0 0 0).dayOfWeek = some 6 ∧ civilWeekday 2000 1 1 = 6) ∧
    ((DateTime.ofFields 2009 12 26 0 0 0 0).dayOfWeek = some 6 ∧
      civilWeekday 2009 12 26 = 6) ∧
    (DateTime.ofFields year m d hh mm ss ms).dayOfWeek
      = some (civilWeekday (2000 + yOff) m d) :=
  ⟨by decide, by decide, dayOfWeek_eq year yOff m d hh mm ss ms hyear hy hv⟩

theorem dayOfWeek_civil_witness :
    (DateTime.ofFields 2026 11 1 9 30 0 0).dayOfWeek = some (civilWeekday (2000 + 26) 11 1) :=
  (dayOfWeek_civil 2026 26 11 1 9 30 0 0 (Or.inr rfl) (by decide) (by decide)).2.2

/-- C5, as the claim states it, fails: 2000-01-01 is a Saturday and `dayOfWeek()` returns 6
for it, not 0; 2009-12-25 is a Friday and `dayOfWeek()` returns 5 for it, not 6. -/
theorem dayOfWeek_saturday_not_zero :
    (validDate 2000 1 1 ∧ civilWeekday 2000 1 1 = 6 ∧
      (DateTime.ofFields 2000 1 1 0 0 0 0).dayOfWeek = some 6 ∧
      (DateTime.ofFields 2000 1 1 0 0 0 0).dayOfWeek ≠ some 0) ∧
    (validDate 2009 12 25 ∧ civilWeekday 2009 12 25 = 5 ∧
      (DateTime.ofFields 2009 12 25 0 0 0 0).dayOfWeek = some 5 ∧
      (DateTime.ofFields 2009 12 25 0 0 0 0).dayOfWeek ≠ some 6) := by
  decide

/-- C5, amended. `dayOfWeek()` orders its results 0 = Sunday through 6 = Saturday: for every
date of the Gregorian calendar from 2000-01-01 to 2099-12-31, `dayOfWeek()` returns 6 exactly
when the date falls on a Saturday and 5 exactly when it falls on a Friday. -/
theorem dayOfWeek_saturday_six (year yOff m d hh mm ss ms : Nat)
    (hyear : year = yOff ∨ year = 2000 + yOff) (hy : yOff ≤ 99)
    (hv : validDate (2000 + yOff) m d) :
    ((DateTime.ofFields year m d hh mm ss ms).dayOfWeek = some 6
      ↔ civilWeekday (2000 + yOff) m d = 6) ∧
    ((DateTime.ofFields year m d hh mm ss ms).dayOfWeek = some 5
      ↔ civilWeekday (2000 + yOff) m d = 5) := by
  rw [dayOfWeek_eq year yOff m d hh mm ss ms hyear hy hv]
  simp only [Option.some.injEq, and_self]

theorem dayOfWeek_saturday_six_witness :
    ((DateTime.ofFields 2026 10 31 0 0 0 0).dayOfWeek = some 6
      ↔ civilWeekday (2000 + 26) 10 31 = 6) ∧
    ((DateTime.ofFields 2026 10 31 0 0 0 0).dayOfWeek = some 5
      ↔ civilWeekday (2000 + 26) 10 31 = 5) :=
  dayOfWeek_saturday_six 2026 26 10 31 0 0 0 0 (Or.inr rfl) (by decide) (by decide)

/-- C6. Compiled-date parsing: for every month `k` in 1..12 written as its English
three-letter abbreviation, every day `dd` in 1..31 written as two characters (below 10 padded
with a space or a zero), every year `20YY` with `YY` in 00..99 and every time `"hh:mm:ss"` of
two-digit fields, the string constructor returns a value with `year() = 2000 + YY`,
`month() = k`, `day() = dd`, `hour() = hh`, `minute() = mm`, `second() = ss` and sub-second
field 0, whatever the field `m` held before; `("Dec 26 2009", "12:34:56")` is such a pair of
texts and yields 2009, 12, 26, 12, 34, 56. -/
theorem compiled_date_parsing (m0 k pad dd yy hh mm ss : Nat) (hk1 : 1 ≤ k) (hk2 : k ≤ 12)
    (hpad : pad = 32 ∨ pad = 48) (hd1 : 1 ≤ dd) (hd2 : dd ≤ 31) (hyy : yy ≤ 99)
    (hhh : hh ≤ 99) (hmm : mm ≤ 99) (hss : ss ≤ 99) :
    (∃ dt, DateTime.ofStrings m0 (dateText k pad dd yy) (timeText hh mm ss) = some dt ∧
      dt.year = 2000 + yy ∧ dt.month = k ∧ dt.day = dd ∧ dt.hour = hh ∧ dt.minute = mm ∧
      dt.second = ss ∧ dt.millis = 0) ∧
    (dateText 12 32 26 9 = cstr "Dec 26 2009" ∧ timeText 12 34 56 = cstr "12:34:56" ∧
      ∃ dt, DateTime.ofStrings m0 (cstr "Dec 26 2009") (cstr "12:34:56") = some dt ∧
        dt.year = 2009 ∧ dt.month = 12 ∧ dt.day = 26 ∧ dt.hour = 12 ∧ dt.minute = 34 ∧
        dt.second = 56 ∧ dt.millis = 0) := by
  refine ⟨⟨_, ofStrings_texts m0 k pad dd yy hh mm ss hk1 hk2 hpad hd1 hd2 hyy hhh hmm hss,
    ?_, rfl, rfl, rfl, rfl, rfl, rfl⟩, by decide, by decide, ?_⟩
  · show (2000 + yy) % 65536 = 2000 + yy
    omega
  · have e1 : dateText 12 32 26 9 = cstr "Dec 26 2009" := by decide
    have e2 : timeText 12 34 56 = cstr "12:34:56" := by decide
    rw [← e1, ← e2]
    exact ⟨_, ofStrings_texts m0 12 32 26 9 12 34 56 (by omega) (by omega) (Or.inl rfl)
      (by omega) (by omega) (by omega) (by omega) (by omega) (by omega),
      rfl, rfl, rfl, rfl, rfl, rfl, rfl⟩

theorem compiled_date_parsing_witness :
    ∃ dt, DateTime.ofStrings 0 (dateText 11 48 1 26) (timeText 9 5 0) = some dt ∧
      dt.year = 2000 + 26 ∧ dt.month = 11 ∧ dt.day = 1 ∧ dt.hour = 9 ∧ dt.minute = 5 ∧
      dt.second = 0 ∧ dt.millis = 0 :=
  (compiled_date_parsing 0 11 48 1 26 9 5 0 (by decide) (by decide) (Or.inr rfl) (by decide)
    (by decide) (by decide) (by decide) (by decide) (by decide)).1

/-- C7. Packed-decimal round trip: for every `v` in 0..99, in particular every `v` in 0..59,
`bcd2bin(bin2bcd(v)) = v`, both functions computed in 8-bit unsigned arithmetic. -/
theorem bcd_round_trip (v : Nat) (hv : v ≤ 99) : bcd2bin (bin2bcd v) = v :=
  (bcd_round_all v (by omega)).1

theorem bcd_round_trip_witness : 59 ≤ 99 ∧ bcd2bin (bin2bcd 59) = 59 :=
  ⟨by decide, bcd_round_trip 59 (by decide)⟩

/-- C8. Chip Clock set-then-read: the chip being a register block that returns on read the
bytes last written, for every timestamp `T` with year 2000..2099, month 1..12, day 1..31,
hour 0..23, minute 0..59, second 0..59 and every tick reading `r`, `adjust(T)` at tick `r`
followed by `now()` at the same tick `r` both return, and the timestamp returned has the
year, month, day, hour, minute and second of `T` and sub-second field 0. -/
theorem set_then_read (s : RTC_DS1307) (regs : Nat → Nat) (T : DateTime) (r : Nat)
    (hy : T.yOff ≤ 99) (hm1 : 1 ≤ T.m) (hm2 : T.m ≤ 12) (hd1 : 1 ≤ T.d) (hd2 : T.d ≤ 31)
    (hhh : T.hh ≤ 23) (hmm : T.mm ≤ 59) (hss : T.ss ≤ 59) :
    ∃ regs1 s1 dt s2, RTC_DS1307.adjust s regs T r = some (regs1, s1) ∧
      RTC_DS1307.now s1 regs1 r = some (dt, s2) ∧
      dt.year = T.year ∧ dt.month = T.month ∧ dt.day = T.day ∧ dt.hour = T.hour ∧
      dt.minute = T.minute ∧ dt.second = T.second ∧ dt.millis = 0 := by
  obtain ⟨u, hu⟩ := unixtime_some T hm2
  have hchip := chipDateTime_adjust regs T hy (by omega) (by omega) (by omega) (by omega) hss
  have hu2 : (chipDateTime (wireWrite regs 0 (adjustBytes T))).unixtime = some u := by
    rw [hchip, ← hu]
    rfl
  have hms : nowMs ⟨r % 4294967296, u⟩ (r % 4294967296) u = 0 := by
    have h := nowMs_same ⟨r % 4294967296, u⟩ (r % 4294967296) (r % 4294967296) u rfl rfl
      (le_refl _) (by omega)
    rw [h]; simp
  refine ⟨wireWrite regs 0 (adjustBytes T), ⟨r % 4294967296, u⟩,
    ⟨T.yOff, T.m, T.d, T.hh, T.mm, T.ss, 0⟩, ⟨r % 4294967296, u⟩, ?_, ?_,
    rfl, rfl, rfl, rfl, rfl, rfl, rfl⟩
  · rw [adjust_eq, hu]
  · rw [now_eq, hu2]
    simp only [hms, hchip]
    rfl

theorem set_then_read_witness :
    ∃ regs1 s1 dt s2,
      RTC_DS1307.adjust ⟨0, 0⟩ (fun _ => 0) ⟨9, 12, 26, 12, 34, 56, 0⟩ 1234 = some (regs1, s1) ∧
      RTC_DS1307.now s1 regs1 1234 = some (dt, s2) ∧
      dt.year = DateTime.year ⟨9, 12, 26, 12, 34, 56, 0⟩ ∧
      dt.month = DateTime.month ⟨9, 12, 26, 12, 34, 56, 0⟩ ∧
      dt.day = DateTime.day ⟨9, 12, 26, 12, 34, 56, 0⟩ ∧
      dt.hour = DateTime.hour ⟨9, 12, 26, 12, 34, 56, 0⟩ ∧
      dt.minute = DateTime.minute ⟨9, 12, 26, 12, 34, 56, 0⟩ ∧
      dt.second = DateTime.second ⟨9, 12, 26, 12, 34, 56, 0⟩ ∧ dt.millis = 0 :=
  set_then_read ⟨0, 0⟩ (fun _ => 0) ⟨9, 12, 26, 12, 34, 56, 0⟩ 1234 (by decide) (by decide)
    (by decide) (by decide) (by decide) (by decide) (by decide) (by decide)

/-- C9 at the failing input: with interpolation state `(prevUnixtime, prevMillis) =
(1261830896, 0)`, registers holding 2009-12-26 12:34:56 (Unix time 1261830896) and tick
reading 300, the clamped value is 300 but the returned timestamp reports `millis() = 44`:
the value is stored in the `uint8_t` field `ms`. -/
theorem now_millis_truncated :
    (chipDateTime (fun a => [0x56, 0x34, 0x12, 0, 0x26, 0x12, 0x09, 0].getD a 0)).unixtime
      = some 1261830896 ∧
    nowMs ⟨0, 1261830896⟩ 300 1261830896 = 300 ∧
    constrain ((300 - 0) - (1261830896 - 1261830896) * 1000) 0 999 = 300 ∧
    (RTC_DS1307.now ⟨0, 1261830896⟩
      (fun a => [0x56, 0x34, 0x12, 0, 0x26, 0x12, 0x09, 0].getD a 0) 300).map
        (fun p => (p.1.unixtime, p.1.millis)) = some (some 1261830896, 44) := by
  decide

/-- C10, as the claim states it, fails: after `adjust` at tick 0 to 2009-12-26 12:34:56, the
chip still reporting that second, `now()` at tick 200 returns sub-second field 200 and
`now()` at tick 250 returns sub-second field 50 with the same `unixtime()`: the second
timestamp is earlier than the first. -/
theorem now_not_monotonic :
    ∃ regs s0 dt1 s1 dt2 s2,
      RTC_DS1307.adjust ⟨0, 0⟩ (fun _ => 0) ⟨9, 12, 26, 12, 34, 56, 0⟩ 0 = some (regs, s0) ∧
      RTC_DS1307.now s0 regs 200 = some (dt1, s1) ∧
      RTC_DS1307.now s1 regs 250 = some (dt2, s2) ∧
      dt1.unixtime = some 1261830896 ∧ dt2.unixtime = some 1261830896 ∧
      dt1.millis = 200 ∧ dt2.millis = 50 ∧ dt2.millis < dt1.millis :=
  ⟨_, _, _, _, _, _, rfl, rfl, rfl, by decide, by decide, by decide, by decide, by decide⟩

/-- C10, amended. For every interpolation state and every two consecutive `now()` calls at
tick readings `t1 ≤ t2` during which the chip reports whole seconds `u1 ≤ u2`, both calls
return and `unixtime()` of the second timestamp is not smaller than that of the first: the
two are `u1` and `u2`.  The sub-second fields are not ordered within one second, because
`now()` counts the ticks from the previous call: when `u1 = u2` and `t2 - t1 ≤ 255`, the
second call reports `millis() = t2 - t1`. -/
theorem now_unixtime_monotone (s : RTC_DS1307) (regs1 regs2 : Nat → Nat) (t1 t2 u1 u2 : Nat)
    (h1 : (chipDateTime regs1).unixtime = some u1)
    (h2 : (chipDateTime regs2).unixtime = some u2)
    (hu : u1 ≤ u2) (ht : t1 ≤ t2) (ht2 : t2 < 4294967296) :
    ∃ dt1 s1 dt2 s2, RTC_DS1307.now s regs1 t1 = some (dt1, s1) ∧
      RTC_DS1307.now s1 regs2 t2 = some (dt2, s2) ∧
      (∃ v1 v2, dt1.unixtime = some v1 ∧ dt2.unixtime = some v2 ∧ v1 = u1 ∧ v2 = u2 ∧
        v1 ≤ v2) ∧
      (u1 = u2 → t2 - t1 ≤ 255 → dt2.millis = t2 - t1) := by
  have e1 : t1 % 4294967296 = t1 := by omega
  have e2 : t2 % 4294967296 = t2 := by omega
  obtain ⟨dt1, hn1, hv1, -⟩ := now_some s regs1 t1 u1 h1
  obtain ⟨dt2, hn2, hv2, hm2⟩ := now_some ⟨t1 % 4294967296, u1⟩ regs2 t2 u2 h2
  refine ⟨dt1, _, dt2, _, hn1, hn2, ⟨u1, u2, hv1, hv2, rfl, rfl, hu⟩, ?_⟩
  intro huu hd
  subst huu
  show dt2.ms = t2 - t1
  rw [hm2, e1, e2, nowMs_same ⟨t1, u1⟩ t1 t2 u1 rfl rfl ht (by omega)]
  omega

theorem now_unixtime_monotone_witness :
    ∃ dt1 s1 dt2 s2,
      RTC_DS1307.now ⟨0, 1261830896⟩
        (fun a => [0x56, 0x34, 0x12, 0, 0x26, 0x12, 0x09, 0].getD a 0) 200 = some (dt1, s1) ∧
      RTC_DS1307.now s1
        (fun a => [0x56, 0x34, 0x12, 0, 0x26, 0x12, 0x09, 0].getD a 0) 250 = some (dt2, s2) ∧
      (∃ v1 v2, dt1.unixtime = some v1 ∧ dt2.unixtime = some v2 ∧ v1 = 1261830896 ∧
        v2 = 1261830896 ∧ v1 ≤ v2) ∧
      (1261830896 = 1261830896 → 250 - 200 ≤ 255 → dt2.millis = 250 - 200) :=
  now_unixtime_monotone ⟨0, 1261830896⟩
    (fun a => [0x56, 0x34, 0x12, 0, 0x26, 0x12, 0x09, 0].getD a 0)
    (fun a => [0x56, 0x34, 0x12, 0, 0x26, 0x12, 0x09, 0].getD a 0) 200 250 1261830896
    1261830896 (by decide) (by decide) (by decide) (by decide) (by decide)

/-- C11, as the claim states it, fails: `adjust` to 2009-12-26 12:34:56 (Unix time
1261830896) at tick reading 500 followed by `now()` at tick reading 2000 returns a timestamp
with `unixtime()` 1261830898, two seconds later and not one, and `millis()` 208, not 2000. -/
theorem tick_clock_1500_fails :
    DateTime.unixtime ⟨9, 12, 26, 12, 34, 56, 0⟩ = some 1261830896 ∧
    ((RTC_Millis.adjust ⟨0, 0⟩ ⟨9, 12, 26, 12, 34, 56, 0⟩ 500).bind
      (fun s => RTC_Millis.now s (500 + 1500))).map (fun dt => (dt.unixtime, dt.millis))
      = some (some (1261830896 + 2), 208) := by
  decide

/-- C11, amended. For every timestamp `T` of the years 2000..2099 and every tick reading
`R` below `2^31`, `adjust(T)` at tick reading `R` followed by `now()` at tick reading
`R + 1500` both return, and the timestamp returned has
`unixtime() = T.unixtime() + (R + 1500) / 1000 - R / 1000`: that is `T.unixtime() + 1` when
`R mod 1000 < 500` and `T.unixtime() + 2` otherwise. -/
theorem tick_clock_1500 (s : RTC_Millis) (T : DateTime) (R : Nat)
    (hy : T.yOff ≤ 99) (hm1 : 1 ≤ T.m) (hm2 : T.m ≤ 12) (hd1 : 1 ≤ T.d) (hd2 : T.d ≤ 31)
    (hhh : T.hh ≤ 23) (hmm : T.mm ≤ 59) (hss : T.ss ≤ 59) (hR : R < 2147483648) :
    ∃ U s1 dt, T.unixtime = some U ∧ RTC_Millis.adjust s T R = some s1 ∧
      RTC_Millis.now s1 (R + 1500) = some dt ∧
      dt.unixtime = some (U + (R + 1500) / 1000 - R / 1000) ∧
      (R % 1000 < 500 → dt.unixtime = some (U + 1)) ∧
      (500 ≤ R % 1000 → dt.unixtime = some (U + 2)) := by
  obtain ⟨U, hU, -, hU2⟩ := unixtime_bound T hy hm1 hm2 hd1 hd2 hhh hmm hss
  obtain ⟨s1, dt, h1, h2, h3, -⟩ := millis_now_eq s T R (R + 1500) U hU hR (by omega)
    (by omega) (by omega)
  refine ⟨U, s1, dt, hU, h1, h2, h3, ?_, ?_⟩
  · intro h
    rw [h3]
    have : U + (R + 1500) / 1000 - R / 1000 = U + 1 := by omega
    rw [this]
  · intro h
    rw [h3]
    have : U + (R + 1500) / 1000 - R / 1000 = U + 2 := by omega
    rw [this]

theorem tick_clock_1500_witness :
    ∃ U s1 dt, DateTime.unixtime ⟨9, 12, 26, 12, 34, 56, 0⟩ = some U ∧
      RTC_Millis.adjust ⟨0, 0⟩ ⟨9, 12, 26, 12, 34, 56, 0⟩ 700 = some s1 ∧
      RTC_Millis.now s1 (700 + 1500) = some dt ∧
      dt.unixtime = some (U + (700 + 1500) / 1000 - 700 / 1000) ∧
      (700 % 1000 < 500 → dt.unixtime = some (U + 1)) ∧
      (500 ≤ 700 % 1000 → dt.unixtime = some (U + 2)) :=
  tick_clock_1500 ⟨0, 0⟩ ⟨9, 12, 26, 12, 34, 56, 0⟩ 700 (by decide) (by decide) (by decide)
    (by decide) (by decide) (by decide) (by decide) (by decide) (by decide)

/-- C12 at the failing input: `adjust` to 2009-12-26 12:34:56 (Unix time 1261830896) at tick
reading `2^31 = 2147483648` followed by `now()` at the same tick reading returns a timestamp
with `unixtime()` 1266125862, which is 4294966 seconds later than the
`1261830896 + 2147483648 / 1000 - 2147483648 / 1000 = 1261830896` of the formula: the reading
is stored in the signed member `offsetms`, where it is negative. -/
theorem tick_clock_signed_offset :
    DateTime.unixtime ⟨9, 12, 26, 12, 34, 56, 0⟩ = some 1261830896 ∧
    RTC_Millis.adjust ⟨0, 0⟩ ⟨9, 12, 26, 12, 34, 56, 0⟩ 2147483648
      = some ⟨1261830896 + 2147483, -648⟩ ∧
    ((RTC_Millis.adjust ⟨0, 0⟩ ⟨9, 12, 26, 12, 34, 56, 0⟩ 2147483648).bind
      (fun s => RTC_Millis.now s 2147483648)).map (fun dt => dt.unixtime)
      = some (some (1261830896 + 4294966)) ∧
    1261830896 + 2147483648 / 1000 - 2147483648 / 1000 = 1261830896 := by
  decide

/-- C13 at the failing input: `DateTime(2009, 12, 26, 12, 34, 56, 500)` reports
`millis() = 244`, not 500, the field `ms` being a `uint8_t`; values up to 255 are kept. -/
theorem millis_field_truncated :
    (DateTime.ofFields 2009 12 26 12 34 56 500).millis = 244 ∧
    (DateTime.ofFields 2009 12 26 12 34 56 255).millis = 255 ∧
    (DateTime.ofFields 2009 12 26 12 34 56 0).millis = 0 := by
  decide

/-- C14. Chip Clock register write layout: for every timestamp `T` with year 2000..2099,
month 1..12, day 1..31, hour 0..23, minute 0..59 and second 0..59, `adjust(T)` returns after
sending register address 0 followed by the bytes `bin2bcd(second)`, `bin2bcd(minute)`,
`bin2bcd(hour)`, the weekday placeholder 0, `bin2bcd(day)`, `bin2bcd(month)`,
`bin2bcd(year - 2000)` (and a final 0 for register 7), so that registers 0..6 hold these
bytes in this order; each of the bytes has its tens digit in the high nibble and its units
digit in the low nibble, and bit 7 of the seconds byte is clear. -/
theorem adjust_register_layout (s : RTC_DS1307) (regs : Nat → Nat) (T : DateTime) (r : Nat)
    (hy : T.yOff ≤ 99) (hm1 : 1 ≤ T.m) (hm2 : T.m ≤ 12) (hd1 : 1 ≤ T.d) (hd2 : T.d ≤ 31)
    (hhh : T.hh ≤ 23) (hmm : T.mm ≤ 59) (hss : T.ss ≤ 59) :
    ∃ regs1 s1, RTC_DS1307.adjust s regs T r = some (regs1, s1) ∧
      regs1 = wireWrite regs 0 [bin2bcd T.second, bin2bcd T.minute, bin2bcd T.hour, 0,
        bin2bcd T.day, bin2bcd T.month, bin2bcd (T.year - 2000), 0] ∧
      (regs1 0 = bin2bcd T.second ∧ regs1 1 = bin2bcd T.minute ∧ regs1 2 = bin2bcd T.hour ∧
        regs1 3 = 0 ∧ regs1 4 = bin2bcd T.day ∧ regs1 5 = bin2bcd T.month ∧
        regs1 6 = bin2bcd (T.year - 2000)) ∧
      (∀ v ∈ [T.second, T.minute, T.hour, T.day, T.month, T.year - 2000],
        bin2bcd v = 16 * (v / 10) + v % 10 ∧ bin2bcd v >>> 4 = v / 10 ∧
        bin2bcd v &&& 15 = v % 10 ∧ v / 10 ≤ 9 ∧ v % 10 ≤ 9) ∧
      (bin2bcd T.second).testBit 7 = false := by
  obtain ⟨u, hu⟩ := unixtime_some T hm2
  have hyear : (T.year + 65536 - 2000) % 65536 = T.year - 2000 := by
    unfold DateTime.year; omega
  have hyear2 : T.year - 2000 = T.yOff := by
    unfold DateTime.year; omega
  have hbytes : adjustBytes T = [bin2bcd T.second, bin2bcd T.minute, bin2bcd T.hour, 0,
      bin2bcd T.day, bin2bcd T.month, bin2bcd (T.year - 2000), 0] := by
    unfold adjustBytes
    rw [hyear]
    rfl
  refine ⟨_, _, by rw [adjust_eq, hu], by rw [hbytes], ?_, ?_, ?_⟩
  · rw [hbytes]
    simp [wireWrite]
  · intro v hv
    have hv99 : v ≤ 99 := by
      simp only [List.mem_cons, List.mem_singleton, hyear2, DateTime.second, DateTime.minute,
        DateTime.hour, DateTime.day, DateTime.month, List.mem_nil_iff, or_false] at hv
      omega
    obtain ⟨-, h2, -, h4, h5⟩ := bcd_round_all v (by omega)
    exact ⟨h2, h4, h5, by omega, by omega⟩
  · exact sec_bit_all T.ss (by omega)

theorem adjust_register_layout_witness :
    ∃ regs1 s1,
      RTC_DS1307.adjust ⟨0, 0⟩ (fun _ => 0) ⟨9, 12, 26, 12, 34, 56, 0⟩ 0 = some (regs1, s1) ∧
      regs1 0 = 0x56 ∧ regs1 1 = 0x34 ∧ regs1 2 = 0x12 ∧ regs1 3 = 0 ∧ regs1 4 = 0x26 ∧
      regs1 5 = 0x12 ∧ regs1 6 = 0x09 :=
  match adjust_register_layout ⟨0, 0⟩ (fun _ => 0) ⟨9, 12, 26, 12, 34, 56, 0⟩ 0 (by decide)
    (by decide) (by decide) (by decide) (by decide) (by decide) (by decide) (by decide) with
  | ⟨regs1, s1, h, _, ⟨h0, h1, h2, h3, h4, h5, h6⟩, _, _⟩ =>
    ⟨regs1, s1, h, h0, h1, h2, h3, h4, h5, h6⟩

/-- C15. `isrunning()` reflects the halt flag: for every byte `b` read from the seconds
register, `isrunning()` returns non-zero if and only if bit 7 of `b` is clear; its result is
1 when `b < 128` and 0 otherwise, so it does not depend on the low seven bits of `b`. -/
theorem isrunning_halt_flag (s : RTC_DS1307) (regs : Nat → Nat) :
    ((RTC_DS1307.isrunning s regs).1 ≠ 0 ↔ (wireRead regs 0 0).testBit 7 = false) ∧
    (RTC_DS1307.isrunning s regs).1 = (if wireRead regs 0 0 < 128 then 1 else 0) ∧
    (∀ regs2 : Nat → Nat, wireRead regs2 0 0 / 128 = wireRead regs 0 0 / 128 →
      (RTC_DS1307.isrunning s regs2).1 = (RTC_DS1307.isrunning s regs).1) := by
  have key : ∀ r : Nat → Nat, ((RTC_DS1307.isrunning s r).1 ≠ 0 ↔
      (wireRead r 0 0).testBit 7 = false) ∧
      (RTC_DS1307.isrunning s r).1 = (if wireRead r 0 0 < 128 then 1 else 0) := by
    intro r
    have hb : wireRead r 0 0 < 256 := Nat.mod_lt _ (by decide)
    exact isrunning_byte (wireRead r 0 0) hb
  refine ⟨(key regs).1, (key regs).2, ?_⟩
  intro regs2 h
  rw [(key regs2).2, (key regs).2]
  by_cases h1 : wireRead regs 0 0 < 128
  · have h2 : wireRead regs2 0 0 < 128 := by omega
    rw [if_pos h1, if_pos h2]
  · have h2 : ¬ wireRead regs2 0 0 < 128 := by omega
    rw [if_neg h1, if_neg h2]

/-- C16. Chip Clock interpolation state is the last observation: `adjust(T)` at tick reading
`r` returns and leaves the state `(prevUnixtime, prevMillis) = (T.unixtime(), r)`; `now()` at
tick reading `r` returns a timestamp `dt` and leaves the state `(dt.unixtime(), r)`;
`isrunning()` and `begin()` leave the state unchanged.  Here `T.unixtime()` is `u` and the
registers hold a date whose `unixtime()` is `v`. -/
theorem interpolation_state (s : RTC_DS1307) (regs : Nat → Nat) (T : DateTime) (r u v : Nat)
    (hr : r < 4294967296) (hT : T.unixtime = some u)
    (hchip : (chipDateTime regs).unixtime = some v) :
    (∃ regs1 s1, RTC_DS1307.adjust s regs T r = some (regs1, s1) ∧
      s1.prevUnixtime = u ∧ s1.prevMillis = r) ∧
    (∃ dt s1, RTC_DS1307.now s regs r = some (dt, s1) ∧
      dt.unixtime = some s1.prevUnixtime ∧ s1.prevMillis = r) ∧
    (RTC_DS1307.isrunning s regs).2 = s ∧ (RTC_DS1307.begin s).2 = s := by
  have e : r % 4294967296 = r := by omega
  obtain ⟨dt, hn, hv, -⟩ := now_some s regs r v hchip
  exact ⟨⟨_, _, by rw [adjust_eq, hT], rfl, e⟩, ⟨dt, _, hn, hv, e⟩, rfl, rfl⟩

theorem interpolation_state_witness :
    (∃ regs1 s1, RTC_DS1307.adjust ⟨7, 8⟩
        (fun a => [0x56, 0x34, 0x12, 0, 0x26, 0x12, 0x09, 0].getD a 0)
        ⟨26, 11, 1, 9, 30, 0, 0⟩ 5000 = some (regs1, s1) ∧
      s1.prevUnixtime = 1793525400 ∧ s1.prevMillis = 5000) ∧
    (∃ dt s1, RTC_DS1307.now ⟨7, 8⟩
        (fun a => [0x56, 0x34, 0x12, 0, 0x26, 0x12, 0x09, 0].getD a 0) 5000 = some (dt, s1) ∧
      dt.unixtime = some s1.prevUnixtime ∧ s1.prevMillis = 5000) ∧
    (RTC_DS1307.isrunning ⟨7, 8⟩
      (fun a => [0x56, 0x34, 0x12, 0, 0x26, 0x12, 0x09, 0].getD a 0)).2 = ⟨7, 8⟩ ∧
    (RTC_DS1307.begin ⟨7, 8⟩).2 = ⟨7, 8⟩ :=
  interpolation_state ⟨7, 8⟩ (fun a => [0x56, 0x34, 0x12, 0, 0x26, 0x12, 0x09, 0].getD a 0)
    ⟨26, 11, 1, 9, 30, 0, 0⟩ 5000 1793525400 1261830896 (by decide) (by decide) (by decide)

/-- C17. `bin2bcd` produces packed decimal and `bcd2bin` decodes it: for every `v` in 0..99,
`bin2bcd(v) = 16 * (v / 10) + v mod 10`, its high nibble being the digit `v / 10` and its low
nibble the digit `v mod 10`; for every byte `b` whose two nibbles are decimal digits,
`bcd2bin(b) = 10 * (b >> 4) + (b & 15)` and `bin2bcd(bcd2bin(b)) = b`. -/
theorem packed_decimal (v b : Nat) (hv : v ≤ 99) (hb : b < 256) (hhi : b >>> 4 ≤ 9)
    (hlo : b &&& 15 ≤ 9) :
    (bin2bcd v = 16 * (v / 10) + v % 10 ∧ bin2bcd v >>> 4 = v / 10 ∧
      bin2bcd v &&& 15 = v % 10 ∧ v / 10 ≤ 9 ∧ v % 10 ≤ 9) ∧
    bcd2bin b = 10 * (b >>> 4) + (b &&& 15) ∧ bin2bcd (bcd2bin b) = b := by
  obtain ⟨-, h2, -, h4, h5⟩ := bcd_round_all v (by omega)
  exact ⟨⟨h2, h4, h5, by omega, by omega⟩, bcd_decode_all b hb hhi hlo⟩

theorem packed_decimal_witness :
    (bin2bcd 59 = 16 * (59 / 10) + 59 % 10 ∧ bin2bcd 59 >>> 4 = 59 / 10 ∧
      bin2bcd 59 &&& 15 = 59 % 10 ∧ 59 / 10 ≤ 9 ∧ 59 % 10 ≤ 9) ∧
    bcd2bin 0x42 = 10 * (0x42 >>> 4) + (0x42 &&& 15) ∧ bin2bcd (bcd2bin 0x42) = 0x42 :=
  packed_decimal 59 0x42 (by decide) (by decide) (by decide) (by decide)

/-- C18. The epoch decoder is total and yields in-range fields: for every 32-bit input `t`
the epoch-seconds constructor returns (both loops end within their 256 rounds, and the month
loop never reads outside the twelve entries of `daysInMonth`, which would leave no result);
its result is that of the same computation over unbounded numbers, so the 8-bit year offset
and the 16-bit day counter do not overflow; and the value has month in 1..12, day in
1..length of that month (February having 29 days exactly when the year offset is a multiple
of 4), hour in 0..23, minute in 0..59, second in 0..59 and sub-second field 0. -/
theorem decoder_total (t : Nat) (ht : t < 4294967296) :
    ∃ dt, DateTime.ofUnixtime t = some dt ∧
      DateTime.decodeU ((t + 4294967296 - SECONDS_FROM_1970_TO_2000) % 4294967296) = some dt ∧
      1 ≤ dt.month ∧ dt.month ≤ 12 ∧ 1 ≤ dt.day ∧ dt.day ≤ monthLength4 dt.yOff dt.month ∧
      dt.hour ≤ 23 ∧ dt.minute ≤ 59 ∧ dt.second ≤ 59 ∧ dt.millis = 0 ∧
      dt.yOff < 256 ∧
      (t + 4294967296 - SECONDS_FROM_1970_TO_2000) % 4294967296 / 60 / 60 / 24 < 65536 := by
  have e : t % 4294967296 = t := by omega
  obtain ⟨dt, h1, h2, h3, h4, h5, h6, h7, h8, h9, h10, h11⟩ :=
    decode_range ((t + 4294967296 - SECONDS_FROM_1970_TO_2000) % 4294967296)
      (Nat.mod_lt _ (by decide))
  refine ⟨dt, ?_, h2, h3, h4, h5, h6, h7, h8, h9, h10, by omega, ?_⟩
  · unfold DateTime.ofUnixtime
    rw [e]
    exact h1
  · have := Nat.mod_lt (t + 4294967296 - SECONDS_FROM_1970_TO_2000)
      (show 0 < 4294967296 by decide)
    omega

theorem decoder_total_witness :
    ∃ dt, DateTime.ofUnixtime 4294967295 = some dt ∧
      DateTime.decodeU ((4294967295 + 4294967296 - SECONDS_FROM_1970_TO_2000) % 4294967296)
        = some dt ∧
      1 ≤ dt.month ∧ dt.month ≤ 12 ∧ 1 ≤ dt.day ∧ dt.day ≤ monthLength4 dt.yOff dt.month ∧
      dt.hour ≤ 23 ∧ dt.minute ≤ 59 ∧ dt.second ≤ 59 ∧ dt.millis = 0 ∧
      dt.yOff < 256 ∧
      (4294967295 + 4294967296 - SECONDS_FROM_1970_TO_2000) % 4294967296 / 60 / 60 / 24
        < 65536 :=
  decoder_total 4294967295 (by decide)

/-- C19. Epoch round trip outside the supported century: with the subtraction and the
addition of 946684800 taken modulo `2^32` as in the code, the epoch-seconds constructor
returns a value for every 32-bit `t` and `unixtime()` of it is `t`; this includes
`t < 946684800` and `t ≥ 4102444800`.  The default-constructed `DateTime(0)` is one of them:
its fields read 2106-02-06 06:28:16, not the civil date 1970-01-01. -/
theorem epoch_round_trip_all (t : Nat) (ht : t < 4294967296) :
    (∃ dt, DateTime.ofUnixtime t = some dt ∧ dt.unixtime = some t) ∧
    DateTime.ofUnixtime 0 = some ⟨106, 2, 6, 6, 28, 16, 0⟩ :=
  ⟨ofUnixtime_unixtime t ht, by decide⟩

theorem epoch_round_trip_all_witness :
    ∃ dt, DateTime.ofUnixtime 4102444800 = some dt ∧ dt.unixtime = some 4102444800 :=
  (epoch_round_trip_all 4102444800 (by decide)).1

end RTClib
